import Mathlib

/-!
Verification of the package-relocation tool `migrate_java_files.py` of the
OldCarBackend repository.

Strings are modelled as `List Char`.  The three `re.sub` calls of
`update_package_and_imports` use only regular expressions of the shape
`lit₁ \s+ lit₂ ...` (plus one optional greedy character-class group followed
by `;`), so each is modelled by an explicit matcher returning the replacement
text and the remaining input; `subst` then performs the leftmost,
non-overlapping, scan-all substitution that `re.sub` performs.  Python's
`str.replace` (used for the five literal rules and the application-class
rename) is the special case of a literal matcher.
-/

namespace Migrate

set_option maxRecDepth 100000

/-- Whitespace characters matched by the regex class `\s` of a Python 3
`str` pattern: the Unicode whitespace set U+0009..U+000D, U+001C..U+0020,
U+0085, U+00A0, U+1680, U+2000..U+200A, U+2028, U+2029, U+202F, U+205F and
U+3000 (CPython's whitespace table). -/
def wsChar (c : Char) : Bool :=
  (9 ≤ c.toNat && c.toNat ≤ 13) || (28 ≤ c.toNat && c.toNat ≤ 32) ||
  c.toNat = 0x85 || c.toNat = 0xa0 || c.toNat = 0x1680 ||
  (0x2000 ≤ c.toNat && c.toNat ≤ 0x200a) || c.toNat = 0x2028 || c.toNat = 0x2029 ||
  c.toNat = 0x202f || c.toNat = 0x205f || c.toNat = 0x3000

/-- Characters of the regex class `[a-zA-Z0-9_.]` used by the package-suffix
group in `update_package_and_imports`, by code point. -/
def idChar (c : Char) : Bool :=
  (0x61 ≤ c.toNat && c.toNat ≤ 0x7a) || (0x41 ≤ c.toNat && c.toNat ≤ 0x5a) ||
  (0x30 ≤ c.toNat && c.toNat ≤ 0x39) || c.toNat = 0x5f || c.toNat = 0x2e

/-- OLD_PACKAGE = "com.CarSelling.Sell.the.old.Car" (line 20 of the script). -/
def OLDP : List Char := "com.CarSelling.Sell.the.old.Car".toList

/-- NEW_PACKAGE = "com.carselling.oldcar" (line 21 of the script). -/
def NEWP : List Char := "com.carselling.oldcar".toList

/-- Consume a literal: on success return the rest of the input. -/
def eatLit (lit s : List Char) : Option (List Char) :=
  if lit.isPrefixOf s then some (s.drop lit.length) else none

/-- Consume one or more whitespace characters (greedy, as `\s+` does when the
following regex token cannot match whitespace). -/
def eatWS1 (s : List Char) : Option (List Char) :=
  match s with
  | [] => none
  | c :: t => if wsChar c then some (t.dropWhile wsChar) else none

/-- Fallback of the package regex when the optional suffix group does not
participate: the match must continue with a literal `;`. -/
def matchANoGroup (s : List Char) : Option (List Char × List Char) :=
  match s with
  | ';' :: rest => some ("package ".toList ++ NEWP ++ [';'], rest)
  | _ => none

/-- Matcher for the first `re.sub` (lines 146-150):
pattern `package\s+com\.CarSelling\.Sell\.the\.old\.Car(\.[a-zA-Z0-9_.]+)?;`,
replacement `package com.carselling.oldcar<group1>;`.
Returns `(replacement, remaining input)` on success. -/
def matchA (s : List Char) : Option (List Char × List Char) :=
  match eatLit "package".toList s with
  | none => none
  | some s1 =>
    match eatWS1 s1 with
    | none => none
    | some s2 =>
      match eatLit OLDP s2 with
      | none => none
      | some s3 =>
        match s3 with
        | '.' :: s4 =>
          let g := s4.takeWhile idChar
          if g = [] then matchANoGroup s3
          else
            match s4.dropWhile idChar with
            | ';' :: s6 => some ("package ".toList ++ NEWP ++ '.' :: g ++ [';'], s6)
            | _ => matchANoGroup s3
        | _ => matchANoGroup s3

/-- Matcher for the second `re.sub` (lines 153-157):
pattern `import\s+com\.CarSelling\.Sell\.the\.old\.Car`,
replacement `import com.carselling.oldcar`. -/
def matchB (s : List Char) : Option (List Char × List Char) :=
  match eatLit "import".toList s with
  | none => none
  | some s1 =>
    match eatWS1 s1 with
    | none => none
    | some s2 =>
      match eatLit OLDP s2 with
      | none => none
      | some s3 => some ("import ".toList ++ NEWP, s3)

/-- Matcher for the third `re.sub` (lines 160-164):
pattern `import\s+static\s+com\.CarSelling\.Sell\.the\.old\.Car`,
replacement `import static com.carselling.oldcar`. -/
def matchC (s : List Char) : Option (List Char × List Char) :=
  match eatLit "import".toList s with
  | none => none
  | some s1 =>
    match eatWS1 s1 with
    | none => none
    | some s2 =>
      match eatLit "static".toList s2 with
      | none => none
      | some s3 =>
        match eatWS1 s3 with
        | none => none
        | some s4 =>
          match eatLit OLDP s4 with
          | none => none
          | some s5 => some ("import static ".toList ++ NEWP, s5)

/-- Fuel-indexed core of the scanning substitution: at each position try the
matcher; on a match emit the replacement and continue after the consumed
text, otherwise keep the character and move one position right.  The fuel is
only a structural-recursion device; `substF_fuel_irrel` shows any fuel of at
least the input length gives the same answer. -/
def substF (m : List Char → Option (List Char × List Char)) :
    Nat → List Char → List Char
  | _, [] => []
  | 0, s => s
  | fuel + 1, c :: t =>
    match m (c :: t) with
    | some (rep, rest) => rep ++ substF m fuel (t.drop (t.length - rest.length))
    | none => c :: substF m fuel t

/-- Leftmost, non-overlapping, whole-input substitution, as performed by
`re.sub` for regexes that cannot match the empty string. -/
def subst (m : List Char → Option (List Char × List Char)) (s : List Char) : List Char :=
  substF m s.length s

/-- Matcher for a literal (non-empty) pattern, giving Python `str.replace`. -/
def litM (p r : List Char) (s : List Char) : Option (List Char × List Char) :=
  if p.isPrefixOf s && !p.isEmpty then some (r, s.drop p.length) else none

/-- Python `content.replace(p, r)` for a non-empty pattern `p`. -/
def pyReplace (p r s : List Char) : List Char :=
  subst (litM p r) s

/-- The `replacements` dict of lines 167-173, in insertion (iteration) order. -/
def RULES : List (List Char × List Char) :=
  [ (NEWP ++ ".model.".toList, NEWP ++ ".entity.".toList),
    (NEWP ++ ".dto.UserDTO.".toList, NEWP ++ ".dto.auth.".toList),
    (NEWP ++ ".dto.CarDTO.".toList, NEWP ++ ".dto.car.".toList),
    (NEWP ++ ".security.AuthPayload".toList, NEWP ++ ".dto.auth.AuthPayload".toList),
    (NEWP ++ ".security.jwt.JwtAuthResponse".toList, NEWP ++ ".dto.auth.JwtAuthResponse".toList) ]

/-- The loop `for old, new in replacements.items(): content = content.replace(old, new)`
(lines 175-176). -/
def applyReplacements (s : List Char) : List Char :=
  RULES.foldl (fun acc pr => pyReplace pr.1 pr.2 acc) s

/-- Python substring containment `p in s`. -/
def occurs (p : List Char) : List Char → Bool
  | [] => p.isPrefixOf []
  | c :: t => p.isPrefixOf (c :: t) || occurs p t

/-- Lines 179-180: rename the application class if its old name occurs. -/
def fixAppName (s : List Char) : List Char :=
  if occurs "SellTheOldCarApplication".toList s then
    pyReplace "SellTheOldCarApplication".toList "OldCarApplication".toList s
  else s

/-- The whole of `update_package_and_imports` (lines 142-182).  The
`file_path` parameter of the Python function is never used by its body and
is therefore omitted. -/
def update_package_and_imports (content : List Char) : List Char :=
  fixAppName (applyReplacements (subst matchC (subst matchB (subst matchA content))))

/-- FILE_MAPPINGS (lines 24-140), an insertion-ordered dict, modelled as the
association list of its entries in source order. -/
def FILE_MAPPINGS : List (String × String) :=
  [ ("SellTheOldCarApplication.java", "OldCarApplication.java"),
    ("config/CorsConfig.java", "config/CorsConfig.java"),
    ("config/ScheduledTasks.java", "config/ScheduledTasks.java"),
    ("config/WebSocketConfig.java", "config/WebSocketConfig.java"),
    ("config/WebSocketEventListener.java", "config/WebSocketEventListener.java"),
    ("controller/AuthController.java", "controller/auth/AuthController.java"),
    ("controller/Car/CarController.java", "controller/car/CarController.java"),
    ("controller/Car/SecureCarController.java", "controller/car/SecureCarController.java"),
    ("controller/CarManagementController.java", "controller/car/CarManagementController.java"),
    ("controller/User/UserController.java", "controller/user/UserController.java"),
    ("controller/SellerController.java", "controller/dealer/SellerController.java"),
    ("controller/chat/ChatController.java", "controller/chat/ChatController.java"),
    ("controller/chat/ChatRestController.java", "controller/chat/ChatRestController.java"),
    ("controller/chat/ChatWebSocketController.java", "controller/chat/ChatWebSocketController.java"),
    ("security/AuthPayload.java", "dto/auth/AuthPayload.java"),
    ("security/jwt/JwtAuthResponse.java", "dto/auth/JwtAuthResponse.java"),
    ("dto/UserDTO/LoginRequest.java", "dto/auth/LoginRequest.java"),
    ("dto/UserDTO/LoginInput.java", "dto/auth/LoginInput.java"),
    ("dto/UserDTO/RegisterRequest.java", "dto/auth/RegisterRequest.java"),
    ("dto/UserDTO/ForgotPasswordRequest.java", "dto/auth/ForgotPasswordRequest.java"),
    ("dto/UserDTO/ResetPasswordRequest.java", "dto/auth/ResetPasswordRequest.java"),
    ("dto/UserDTO/RefreshTokenRequest.java", "dto/auth/RefreshTokenRequest.java"),
    ("dto/UserDTO/UpdateUserInput.java", "dto/user/UpdateUserInput.java"),
    ("dto/UserPage.java", "dto/user/UserPage.java"),
    ("dto/CarDTO/CarInput.java", "dto/car/CarInput.java"),
    ("dto/CarDTO/UpdateCarInput.java", "dto/car/UpdateCarInput.java"),
    ("dto/CarDTO/CarResponseDTO.java", "dto/car/CarResponseDTO.java"),
    ("model/User.java", "entity/User.java"),
    ("model/Car.java", "entity/Car.java"),
    ("model/Role.java", "entity/Role.java"),
    ("model/Permission.java", "entity/Permission.java"),
    ("model/SellerType.java", "entity/SellerType.java"),
    ("model/OtpToken.java", "entity/OtpToken.java"),
    ("model/Chat.java", "entity/chat/Chat.java"),
    ("model/ChatParticipant.java", "entity/chat/ChatParticipant.java"),
    ("model/Message.java", "entity/chat/Message.java"),
    ("model/MessageStatus.java", "entity/chat/MessageStatus.java"),
    ("model/UserStatus.java", "entity/chat/UserStatus.java"),
    ("model/chat/Chat.java", "entity/chat/Chat.java"),
    ("model/chat/ChatParticipant.java", "entity/chat/ChatParticipant.java"),
    ("model/chat/Message.java", "entity/chat/Message.java"),
    ("model/chat/MessageStatus.java", "entity/chat/MessageStatus.java"),
    ("model/chat/UserStatus.java", "entity/chat/UserStatus.java"),
    ("exception/GlobalExceptionHandler.java", "exception/GlobalExceptionHandler.java"),
    ("exception/ResourceNotFoundException.java", "exception/ResourceNotFoundException.java"),
    ("exception/ResourceAlreadyExistsException.java", "exception/ResourceAlreadyExistsException.java"),
    ("exception/UnauthorizedActionException.java", "exception/UnauthorizedActionException.java"),
    ("repository/UserRepository.java", "repository/UserRepository.java"),
    ("repository/CarRepository.java", "repository/CarRepository.java"),
    ("repository/OtpTokenRepository.java", "repository/OtpTokenRepository.java"),
    ("repository/ChatRepository.java", "repository/ChatRepository.java"),
    ("repository/ChatParticipantRepository.java", "repository/ChatParticipantRepository.java"),
    ("repository/MessageRepository.java", "repository/MessageRepository.java"),
    ("repository/MessageStatusRepository.java", "repository/MessageStatusRepository.java"),
    ("repository/UserStatusRepository.java", "repository/UserStatusRepository.java"),
    ("repository/chat/ChatRepository.java", "repository/chat/ChatRepository.java"),
    ("repository/chat/ChatParticipantRepository.java", "repository/chat/ChatParticipantRepository.java"),
    ("repository/chat/MessageRepository.java", "repository/chat/MessageRepository.java"),
    ("repository/chat/MessageStatusRepository.java", "repository/chat/MessageStatusRepository.java"),
    ("repository/chat/UserStatusRepository.java", "repository/chat/UserStatusRepository.java"),
    ("security/SecurityConfig.java", "security/SecurityConfig.java"),
    ("security/CustomUserDetailsService.java", "security/CustomUserDetailsService.java"),
    ("security/UserPrincipal.java", "security/UserPrincipal.java"),
    ("security/jwt/JwtAuthenticationEntryPoint.java", "security/jwt/JwtAuthenticationEntryPoint.java"),
    ("security/jwt/JwtAuthenticationFilter.java", "security/jwt/JwtAuthenticationFilter.java"),
    ("security/jwt/JwtTokenProvider.java", "security/jwt/JwtTokenProvider.java"),
    ("service/AuthService.java", "service/AuthService.java"),
    ("service/AuthenticationService.java", "service/AuthenticationService.java"),
    ("service/UserService.java", "service/UserService.java"),
    ("service/CarService.java", "service/CarService.java"),
    ("service/OtpService.java", "service/OtpService.java"),
    ("service/CarServiceImpl.java", "service/impl/CarServiceImpl.java"),
    ("service/chat/ChatService.java", "service/chat/ChatService.java"),
    ("service/chat/ChatSecurityService.java", "service/chat/ChatSecurityService.java"),
    ("service/chat/MessageService.java", "service/chat/MessageService.java"),
    ("service/chat/MessageDeliveryService.java", "service/chat/MessageDeliveryService.java"),
    ("service/chat/RateLimitingService.java", "service/chat/RateLimitingService.java"),
    ("service/chat/UserStatusService.java", "service/chat/UserStatusService.java") ]

/-- Directory of OLD_SRC (line 14) below BASE_DIR, as path segments. -/
def OLD_SRC_SEGS : List String := ["src", "main", "java", "com", "CarSelling", "Sell", "the", "old", "Car"]

/-- Directory of NEW_SRC (line 15) below BASE_DIR, as path segments. -/
def NEW_SRC_SEGS : List String := ["src", "main", "java", "com", "carselling", "oldcar"]

/-- Directory of OLD_TEST (line 16) below BASE_DIR, as path segments. -/
def OLD_TEST_SEGS : List String := ["src", "test", "java", "com", "CarSelling", "Sell", "the", "old", "Car"]

/-- Directory of NEW_TEST (line 17) below BASE_DIR, as path segments. -/
def NEW_TEST_SEGS : List String := ["src", "test", "java", "com", "carselling", "oldcar"]

/-- Characterwise path splitter (the relative paths of the mapping table
contain no empty segments).  A plain structural recursion is used so that
path computations reduce inside the kernel. -/
def splitSegsAux : List Char → List Char → List (List Char)
  | [], acc => [acc.reverse]
  | c :: t, acc => if c = '/' then acc.reverse :: splitSegsAux t [] else splitSegsAux t (c :: acc)

/-- Split a relative path of the mapping table into its segments. -/
def segs (rel : String) : List String := (splitSegsAux rel.toList []).map String.mk

/-- Full path (relative to BASE_DIR) of `OLD_SRC / rel`. -/
def oldSrcPath (rel : String) : List String := OLD_SRC_SEGS ++ segs rel

/-- Full path (relative to BASE_DIR) of `NEW_SRC / rel`. -/
def newSrcPath (rel : String) : List String := NEW_SRC_SEGS ++ segs rel

/-- Full path (relative to BASE_DIR) of `OLD_TEST / rel`. -/
def oldTestPath (rel : String) : List String := OLD_TEST_SEGS ++ segs rel

/-- Full path (relative to BASE_DIR) of `NEW_TEST / rel`. -/
def newTestPath (rel : String) : List String := NEW_TEST_SEGS ++ segs rel

/-- Filesystem model: contents (if any) at each path below BASE_DIR.
Paths are segment lists; the four roots above are pairwise non-overlapping
directories (they differ within their concrete segments, even
case-insensitively), so path equality is plain list equality. -/
def FileSys : Type := List String → Option (List Char)

/-- Environment-failure oracle: which reads and writes raise an `Exception`
(I/O error, encoding error, mkdir failure folded into the write), and with
which message.  It is a function of the path, so a deterministic
environment. -/
structure Oracle where
  readErr : List String → Option String
  writeErr : List String → Option String

/-- The oracle of a failure-free environment. -/
def happyOracle : Oracle := ⟨fun _ => none, fun _ => none⟩

/-- One console line of the run. -/
inductive LogEntry
  | migrated (name : String) (dest : List String)
  | failed (name : String) (err : String)
  | notFound (rel : String)

/-- Python `Path(...).name`: the last path component. -/
def pathName (rel : String) : String := (segs rel).getLastD ""

/-- Accumulated run state: filesystem, the two counters of `main`
(lines 213-214) and the console output. -/
structure RunState where
  fs : FileSys
  success : Nat
  fail : Nat
  log : List LogEntry

/-- The `migrate_file` function (lines 184-205): read, transform, write,
with every exception caught and turned into a `False` result.  Returns the
new filesystem, the boolean result, and the line printed. -/
def migrate_file (ω : Oracle) (oldPath newPath : List String) (name : String)
    (fs : FileSys) : FileSys × Bool × LogEntry :=
  match ω.readErr oldPath with
  | some e => (fs, false, .failed name e)
  | none =>
    match fs oldPath with
    | none => (fs, false, .failed name "No such file or directory")
    | some content =>
      match ω.writeErr newPath with
      | some e => (fs, false, .failed name e)
      | none =>
        (fun p => if p = newPath then some (update_package_and_imports content) else fs p,
         true, .migrated name newPath)

/-- One iteration of the mapping loop of `main` (lines 217-228). -/
def processEntry (ω : Oracle) (st : RunState) (e : String × String) : RunState :=
  if (st.fs (oldSrcPath e.1)).isSome then
    let res := migrate_file ω (oldSrcPath e.1) (newSrcPath e.2) (pathName e.1) st.fs
    if res.2.1 then
      { fs := res.1, success := st.success + 1, fail := st.fail, log := st.log ++ [res.2.2] }
    else
      { fs := res.1, success := st.success, fail := st.fail + 1, log := st.log ++ [res.2.2] }
  else
    { st with log := st.log ++ [.notFound e.1] }

/-- Relative path of the single test file migrated after the table
(line 231). -/
def TEST_OLD_REL : String := "SellTheOldCarApplicationTests.java"

/-- Destination relative path of the test file (line 233). -/
def TEST_NEW_REL : String := "OldCarApplicationTests.java"

/-- The test-file step of `main` (lines 231-237). -/
def testStep (ω : Oracle) (st : RunState) : RunState :=
  if (st.fs (oldTestPath TEST_OLD_REL)).isSome then
    let res := migrate_file ω (oldTestPath TEST_OLD_REL) (newTestPath TEST_NEW_REL)
      (pathName TEST_OLD_REL) st.fs
    if res.2.1 then
      { fs := res.1, success := st.success + 1, fail := st.fail, log := st.log ++ [res.2.2] }
    else
      { fs := res.1, success := st.success, fail := st.fail + 1, log := st.log ++ [res.2.2] }
  else st

/-- Initial run state. -/
def initState (fs : FileSys) : RunState := ⟨fs, 0, 0, []⟩

/-- The whole of `main` (lines 207-252): fold the mapping table, then the
test file; the final summary prints the two counters of the result. -/
def mainRun (ω : Oracle) (fs : FileSys) : RunState :=
  testStep ω (FILE_MAPPINGS.foldl (processEntry ω) (initState fs))

/-- Rightmost binding of a path in a write list (the last write wins). -/
def lastAssoc : List (List String × List Char) → List String → Option (List Char)
  | [], _ => none
  | (q, v) :: ws, p =>
    match lastAssoc ws p with
    | some w => some w
    | none => if p = q then some v else none

/-- Apply a list of writes, in order, to a filesystem. -/
def applyWrites (ws : List (List String × List Char)) (g : FileSys) : FileSys :=
  fun p =>
    match lastAssoc ws p with
    | some v => some v
    | none => g p

/-- The write a mapping entry performs, as a function of the (old-tree part
of the) initial filesystem: present exactly when the source file exists and
neither its read nor its write fails. -/
def entryWrite (ω : Oracle) (σ : FileSys) (e : String × String) :
    Option (List String × List Char) :=
  match σ (oldSrcPath e.1) with
  | none => none
  | some content =>
    match ω.readErr (oldSrcPath e.1) with
    | some _ => none
    | none =>
      match ω.writeErr (newSrcPath e.2) with
      | some _ => none
      | none => some (newSrcPath e.2, update_package_and_imports content)

/-- The write of the test-file step, in the same style. -/
def testWrite (ω : Oracle) (σ : FileSys) : Option (List String × List Char) :=
  match σ (oldTestPath TEST_OLD_REL) with
  | none => none
  | some content =>
    match ω.readErr (oldTestPath TEST_OLD_REL) with
    | some _ => none
    | none =>
      match ω.writeErr (newTestPath TEST_NEW_REL) with
      | some _ => none
      | none => some (newTestPath TEST_NEW_REL, update_package_and_imports content)

/-- All writes of one run, in execution order. -/
def runWrites (ω : Oracle) (σ : FileSys) : List (List String × List Char) :=
  FILE_MAPPINGS.filterMap (entryWrite ω σ) ++ (testWrite ω σ).toList

/-- Number of mapping entries whose source file exists. -/
def countExisting (σ : FileSys) : Nat :=
  FILE_MAPPINGS.countP (fun e => (σ (oldSrcPath e.1)).isSome)

/-- One more processed file when the test source exists. -/
def testDelta (σ : FileSys) : Nat :=
  if (σ (oldTestPath TEST_OLD_REL)).isSome then 1 else 0

/-- Two lists are prefix-compatible when one is a prefix of the other;
equivalently, some continuation of the shorter one matches the longer one. -/
def Compat (a b : List Char) : Prop := a <+: b ∨ b <+: a

instance (a b : List Char) : Decidable (Compat a b) :=
  inferInstanceAs (Decidable (a <+: b ∨ b <+: a))

/-- Tokens of the simultaneous two-pattern scan used to analyse the order of
the literal replacement rules: a match of the first pattern, a match of the
second, or a single unmatched character. -/
inductive Tok
  | hit1
  | hit2
  | chr (c : Char)

/-- Exchange the roles of the two patterns. -/
def swapTok : Tok → Tok
  | .hit1 => .hit2
  | .hit2 => .hit1
  | .chr c => .chr c

/-- Fuel-indexed left-to-right scan, consuming a `p₁` match, else a `p₂`
match, else one character. -/
def scanTwoF (p₁ p₂ : List Char) : Nat → List Char → List Tok
  | _, [] => []
  | 0, _ => []
  | fuel + 1, c :: t =>
    if p₁.isPrefixOf (c :: t) then .hit1 :: scanTwoF p₁ p₂ fuel (t.drop (p₁.length - 1))
    else if p₂.isPrefixOf (c :: t) then .hit2 :: scanTwoF p₁ p₂ fuel (t.drop (p₂.length - 1))
    else .chr c :: scanTwoF p₁ p₂ fuel t

/-- The two-pattern scan of a whole string. -/
def scanTwo (p₁ p₂ s : List Char) : List Tok := scanTwoF p₁ p₂ s.length s

/-- Rebuild a string from a token list, emitting `a` for `p₁` matches and
`b` for `p₂` matches. -/
def render (a b : List Char) : List Tok → List Char
  | [] => []
  | .hit1 :: ts => a ++ render a b ts
  | .hit2 :: ts => b ++ render a b ts
  | .chr c :: ts => c :: render a b ts

/-- Non-interference conditions between two literal replacement rules
`a = (p₁, r₁)` and `b = (p₂, r₂)`: no pattern overlaps the other pattern,
either replacement, or a suffix of either, in any context.  All five rules
of `replacements` satisfy these conditions pairwise because every pattern
and replacement starts with the anchor `com` and contains it nowhere else. -/
def CommOK (a b : List Char × List Char) : Prop :=
  a.1 ≠ [] ∧ b.1 ≠ [] ∧
  (∀ i < b.1.length, ¬ Compat (b.1.drop i) a.1) ∧
  (∀ i < a.1.length, ¬ Compat (a.1.drop i) b.1) ∧
  (∀ i < a.2.length, ¬ Compat (a.2.drop i) b.1) ∧
  (∀ i < b.2.length, ¬ Compat (b.2.drop i) a.1) ∧
  (∀ j < b.1.length, ¬ Compat (b.1.drop j) a.2) ∧
  (∀ j < a.1.length, ¬ Compat (a.1.drop j) b.2)

instance (a b : List Char × List Char) : Decidable (CommOK a b) := by
  unfold CommOK
  infer_instance

/-- A package declaration of the old package with sub-package suffix `sfx`. -/
def pkgDecl (sfx : List Char) : List Char := "package ".toList ++ OLDP ++ sfx ++ [';']

/-- The same declaration under the new package name. -/
def pkgDeclNew (sfx : List Char) : List Char := "package ".toList ++ NEWP ++ sfx ++ [';']

/-- Well-formed sub-package suffixes of a package declaration: empty, or a
dot followed by a non-empty run of characters of the class `[a-zA-Z0-9_.]`
(what the optional group of the package regex can capture). -/
def SuffixOK (sfx : List Char) : Prop :=
  sfx = [] ∨ ∃ rest, sfx = '.' :: rest ∧ rest ≠ [] ∧ ∀ c ∈ rest, idChar c = true

/-- An import statement of the old package: `import ` followed by the old
package name and the remainder `rest` of the line. -/
def impDecl (rest : List Char) : List Char := "import ".toList ++ OLDP ++ rest

/-- The same import under the new package name. -/
def impDeclNew (rest : List Char) : List Char := "import ".toList ++ NEWP ++ rest

/-- A static import of the old package. -/
def impStaticDecl (rest : List Char) : List Char := "import static ".toList ++ OLDP ++ rest

/-- The same static import under the new package name. -/
def impStaticDeclNew (rest : List Char) : List Char := "import static ".toList ++ NEWP ++ rest

/-- The two-line old-structure file of the end-to-end scenario of the
specification. -/
def contentC1 : List Char :=
  "package com.CarSelling.Sell.the.old.Car.model;\nimport com.CarSelling.Sell.the.old.Car.dto.UserDTO.LoginRequest;\n".toList

/-! Foundational lemmas about the scanning substitution. -/

theorem substF_nil (m : List Char → Option (List Char × List Char)) (fuel : Nat) :
    substF m fuel [] = [] := by
  cases fuel <;> rfl

theorem substF_fuel (m : List Char → Option (List Char × List Char)) :
    ∀ f₁ f₂ s, s.length ≤ f₁ → s.length ≤ f₂ → substF m f₁ s = substF m f₂ s := by
  intro f₁
  induction f₁ with
  | zero =>
    intro f₂ s hs₁ _
    have : s = [] := List.length_eq_zero.mp (Nat.le_zero.mp hs₁)
    subst this
    simp [substF_nil]
  | succ f ih =>
    intro f₂ s hs₁ hs₂
    cases s with
    | nil => simp [substF_nil]
    | cons c t =>
      cases f₂ with
      | zero => simp at hs₂
      | succ f' =>
        have ht : t.length ≤ f := Nat.le_of_succ_le_succ (by simpa using hs₁)
        have ht' : t.length ≤ f' := Nat.le_of_succ_le_succ (by simpa using hs₂)
        show substF m (f + 1) (c :: t) = substF m (f' + 1) (c :: t)
        simp only [substF]
        cases hm : m (c :: t) with
        | some pr =>
          obtain ⟨rep, rest⟩ := pr
          dsimp only
          have hk : (t.drop (t.length - rest.length)).length ≤ t.length := by
            simp [List.length_drop]
          rw [ih _ _ (le_trans hk ht) (le_trans hk ht')]
        | none =>
          dsimp only
          rw [ih _ _ ht ht']

theorem subst_cons_none {m : List Char → Option (List Char × List Char)} {c : Char}
    {t : List Char} (h : m (c :: t) = none) : subst m (c :: t) = c :: subst m t := by
  show substF m (c :: t).length (c :: t) = c :: substF m t.length t
  simp only [List.length_cons, substF, h]

theorem subst_cons_some {m : List Char → Option (List Char × List Char)} {c : Char}
    {t rep rest : List Char} (h : m (c :: t) = some (rep, rest)) (hs : rest <:+ t) :
    subst m (c :: t) = rep ++ subst m rest := by
  obtain ⟨pre, rfl⟩ := hs
  show substF m (c :: (pre ++ rest)).length (c :: (pre ++ rest)) = _
  simp only [List.length_cons, substF, h]
  congr 1
  have hd : (pre ++ rest).drop ((pre ++ rest).length - rest.length) = rest := by
    have h1 : (pre ++ rest).length - rest.length = pre.length := by
      simp [List.length_append]
    rw [h1, List.drop_left]
  rw [hd]
  exact substF_fuel m _ _ rest (by simp [List.length_append]) (le_refl _)

theorem subst_append_none (m : List Char → Option (List Char × List Char)) :
    ∀ (u x : List Char), (∀ i, i < u.length → m (u.drop i ++ x) = none) →
      subst m (u ++ x) = u ++ subst m x := by
  intro u
  induction u with
  | nil => intro x _; simp
  | cons a u ih =>
    intro x h
    have h0 : m (a :: (u ++ x)) = none := by simpa using h 0 (by simp)
    rw [List.cons_append, subst_cons_none h0,
      ih x (fun i hi => by simpa using h (i + 1) (by simpa using Nat.succ_lt_succ hi))]
    rfl

theorem subst_id_of_none (m : List Char → Option (List Char × List Char)) :
    ∀ s, (∀ t, t <:+ s → m t = none) → subst m s = s := by
  intro s
  induction s with
  | nil => intro _; rfl
  | cons c t ih =>
    intro h
    rw [subst_cons_none (h _ (List.suffix_refl _)),
      ih (fun t' ht' => h t' (ht'.trans (List.suffix_cons c t)))]

theorem subst_nil_eq (m : List Char → Option (List Char × List Char)) : subst m [] = [] := rfl

theorem subst_whole {m : List Char → Option (List Char × List Char)} {s rep : List Char}
    (h : m s = some (rep, [])) (hs : s ≠ []) : subst m s = rep := by
  cases s with
  | nil => exact absurd rfl hs
  | cons c t =>
    rw [subst_cons_some h (List.nil_suffix), subst_nil_eq, List.append_nil]

/-! Lemmas about the three regex matchers. -/

theorem eatLit_suffix {lit s r : List Char} (h : eatLit lit s = some r) : r <:+ s := by
  unfold eatLit at h
  split at h
  · cases h; exact List.drop_suffix _ _
  · cases h

theorem eatWS1_suffix {s r : List Char} (h : eatWS1 s = some r) : r <:+ s := by
  cases s with
  | nil => cases h
  | cons c t =>
    by_cases hw : wsChar c = true
    · have h' : some (t.dropWhile wsChar) = some r := by simpa [eatWS1, hw] using h
      cases h'
      exact (List.dropWhile_suffix _).trans (List.suffix_cons c t)
    · simp [eatWS1, hw] at h

theorem eatWS1_none {s : List Char} (h : ∀ c ∈ s, wsChar c = false) : eatWS1 s = none := by
  cases s with
  | nil => rfl
  | cons c t => simp [eatWS1, h c (by simp)]

theorem matchA_none_noWS {s : List Char} (h : ∀ c ∈ s, wsChar c = false) : matchA s = none := by
  unfold matchA
  cases h1 : eatLit "package".toList s with
  | none => rfl
  | some s1 =>
    dsimp only
    rw [eatWS1_none (fun c hc => h c ((eatLit_suffix h1).mem hc))]

theorem matchB_none_noWS {s : List Char} (h : ∀ c ∈ s, wsChar c = false) : matchB s = none := by
  unfold matchB
  cases h1 : eatLit "import".toList s with
  | none => rfl
  | some s1 =>
    dsimp only
    rw [eatWS1_none (fun c hc => h c ((eatLit_suffix h1).mem hc))]

theorem matchC_none_noWS {s : List Char} (h : ∀ c ∈ s, wsChar c = false) : matchC s = none := by
  unfold matchC
  cases h1 : eatLit "import".toList s with
  | none => rfl
  | some s1 =>
    dsimp only
    rw [eatWS1_none (fun c hc => h c ((eatLit_suffix h1).mem hc))]

theorem prefix_append_cases {p d x : List Char} (h : p <+: d ++ x) : p <+: d ∨ d <+: p :=
  List.prefix_or_prefix_of_prefix h (List.prefix_append d x)

theorem eatLit_none_incompat {lit d x : List Char} (hc : ¬ Compat lit d) :
    eatLit lit (d ++ x) = none := by
  unfold eatLit
  split
  · rename_i hpre
    exact absurd (prefix_append_cases (List.isPrefixOf_iff_prefix.mp hpre)) hc
  · rfl

theorem matchA_none_incompat {d x : List Char} (hc : ¬ Compat "package".toList d) :
    matchA (d ++ x) = none := by
  unfold matchA
  rw [eatLit_none_incompat hc]

theorem matchB_none_incompat {d x : List Char} (hc : ¬ Compat "import".toList d) :
    matchB (d ++ x) = none := by
  unfold matchB
  rw [eatLit_none_incompat hc]

theorem matchC_none_incompat {d x : List Char} (hc : ¬ Compat "import".toList d) :
    matchC (d ++ x) = none := by
  unfold matchC
  rw [eatLit_none_incompat hc]

theorem subst_id_noWS_A {s : List Char} (h : ∀ c ∈ s, wsChar c = false) :
    subst matchA s = s :=
  subst_id_of_none _ s (fun t ht => matchA_none_noWS (fun c hc => h c (ht.mem hc)))

theorem subst_id_noWS_B {s : List Char} (h : ∀ c ∈ s, wsChar c = false) :
    subst matchB s = s :=
  subst_id_of_none _ s (fun t ht => matchB_none_noWS (fun c hc => h c (ht.mem hc)))

theorem subst_id_noWS_C {s : List Char} (h : ∀ c ∈ s, wsChar c = false) :
    subst matchC s = s :=
  subst_id_of_none _ s (fun t ht => matchC_none_noWS (fun c hc => h c (ht.mem hc)))

theorem wsChar_false_of_idChar {c : Char} (h : idChar c = true) : wsChar c = false := by
  by_contra hw
  have hw' : wsChar c = true := by revert hw; cases wsChar c <;> simp
  unfold wsChar at hw'
  unfold idChar at h
  simp only [Bool.or_eq_true, Bool.and_eq_true, decide_eq_true_eq] at hw' h
  omega

/-! Behaviour of the three regex passes on whole package declarations and
on import statements. -/

theorem eatLit_self (lit x : List Char) : eatLit lit (lit ++ x) = some x := by
  have h : lit.isPrefixOf (lit ++ x) = true :=
    List.isPrefixOf_iff_prefix.mpr (List.prefix_append lit x)
  simp [eatLit, h, List.drop_left]

theorem eatWS1_space {x : List Char} {c : Char} {t : List Char} (hx : x = c :: t)
    (hc : wsChar c = false) : eatWS1 (' ' :: x) = some x := by
  subst hx
  simp [eatWS1, show wsChar ' ' = true from rfl, List.dropWhile_cons, hc]

theorem takeWhile_stop {p : Char → Bool} (z : Char) (b : List Char) (hz : p z = false) :
    ∀ a : List Char, (∀ c ∈ a, p c = true) →
      (a ++ z :: b).takeWhile p = a ∧ (a ++ z :: b).dropWhile p = z :: b := by
  intro a
  induction a with
  | nil => intro _; simp [List.takeWhile_cons, List.dropWhile_cons, hz]
  | cons c a ih =>
    intro ha
    have hc : p c = true := ha c (by simp)
    have ih' := ih (fun u hu => ha u (by simp [hu]))
    simp [List.takeWhile_cons, List.dropWhile_cons, hc, ih'.1, ih'.2]

theorem matchA_fire {rest : List Char} (hne : rest ≠ []) (hall : ∀ c ∈ rest, idChar c = true) :
    matchA ("package".toList ++ ' ' :: (OLDP ++ '.' :: (rest ++ [';']))) =
      some ("package ".toList ++ NEWP ++ '.' :: (rest ++ [';']), []) := by
  have hO : OLDP ++ '.' :: (rest ++ [';']) =
      'c' :: ("om.CarSelling.Sell.the.old.Car".toList ++ '.' :: (rest ++ [';'])) := rfl
  have htw := takeWhile_stop ';' [] (by decide) rest hall
  unfold matchA
  rw [eatLit_self]
  dsimp only
  rw [eatWS1_space hO (by decide)]
  dsimp only
  rw [eatLit_self]
  dsimp only
  simp only [htw.1, htw.2]
  simp [hne]

theorem subA_pkgDecl {sfx : List Char} (h : SuffixOK sfx) :
    subst matchA (pkgDecl sfx) = pkgDeclNew sfx := by
  rcases h with rfl | ⟨rest, rfl, hne, hall⟩
  · decide
  · have harg : pkgDecl ('.' :: rest) =
        "package".toList ++ ' ' :: (OLDP ++ '.' :: (rest ++ [';'])) := rfl
    have hrep : pkgDeclNew ('.' :: rest) =
        "package ".toList ++ NEWP ++ '.' :: (rest ++ [';']) := rfl
    rw [harg, hrep]
    exact subst_whole (matchA_fire hne hall) (by simp)

theorem subB_pkgDeclNew {sfx : List Char} (h : ∀ c ∈ sfx, idChar c = true) :
    subst matchB (pkgDeclNew sfx) = pkgDeclNew sfx := by
  have hsp : pkgDeclNew sfx = ("package ".toList ++ NEWP) ++ (sfx ++ [';']) := by
    simp [pkgDeclNew]
  have hdr : ∀ i < ("package ".toList ++ NEWP).length,
      ¬ Compat "import".toList (("package ".toList ++ NEWP).drop i) := by decide
  have hx : ∀ c ∈ sfx ++ [';'], wsChar c = false := by
    intro c hc
    rcases List.mem_append.mp hc with hc | hc
    · exact wsChar_false_of_idChar (h c hc)
    · simp at hc; subst hc; decide
  rw [hsp, subst_append_none _ _ _ (fun i hi => matchB_none_incompat (hdr i hi)),
    subst_id_noWS_B hx]

theorem subC_pkgDeclNew {sfx : List Char} (h : ∀ c ∈ sfx, idChar c = true) :
    subst matchC (pkgDeclNew sfx) = pkgDeclNew sfx := by
  have hsp : pkgDeclNew sfx = ("package ".toList ++ NEWP) ++ (sfx ++ [';']) := by
    simp [pkgDeclNew]
  have hdr : ∀ i < ("package ".toList ++ NEWP).length,
      ¬ Compat "import".toList (("package ".toList ++ NEWP).drop i) := by decide
  have hx : ∀ c ∈ sfx ++ [';'], wsChar c = false := by
    intro c hc
    rcases List.mem_append.mp hc with hc | hc
    · exact wsChar_false_of_idChar (h c hc)
    · simp at hc; subst hc; decide
  rw [hsp, subst_append_none _ _ _ (fun i hi => matchC_none_incompat (hdr i hi)),
    subst_id_noWS_C hx]

theorem update_pkgDecl {sfx : List Char} (h : SuffixOK sfx) :
    update_package_and_imports (pkgDecl sfx) =
      fixAppName (applyReplacements (pkgDeclNew sfx)) := by
  have hid : ∀ c ∈ sfx, idChar c = true := by
    rcases h with rfl | ⟨rest, rfl, hne, hall⟩
    · simp
    · intro c hc
      rcases List.mem_cons.mp hc with rfl | hc
      · decide
      · exact hall c hc
  unfold update_package_and_imports
  rw [subA_pkgDecl h, subB_pkgDeclNew hid, subC_pkgDeclNew hid]

theorem matchB_fire {rest : List Char} :
    matchB ("import".toList ++ ' ' :: (OLDP ++ rest)) =
      some ("import ".toList ++ NEWP, rest) := by
  have hO : OLDP ++ rest = 'c' :: ("om.CarSelling.Sell.the.old.Car".toList ++ rest) := rfl
  unfold matchB
  rw [eatLit_self]
  dsimp only
  rw [eatWS1_space hO (by decide)]
  dsimp only
  rw [eatLit_self]

theorem subA_impDecl {rest : List Char} (h : ∀ c ∈ rest, wsChar c = false) :
    subst matchA (impDecl rest) = impDecl rest := by
  have hsp : impDecl rest = ("import ".toList ++ OLDP) ++ rest := by
    simp [impDecl]
  have hdr : ∀ i < ("import ".toList ++ OLDP).length,
      ¬ Compat "package".toList (("import ".toList ++ OLDP).drop i) := by decide
  rw [hsp, subst_append_none _ _ _ (fun i hi => matchA_none_incompat (hdr i hi)),
    subst_id_noWS_A h]

theorem subB_impDecl {rest : List Char} (h : ∀ c ∈ rest, wsChar c = false) :
    subst matchB (impDecl rest) = impDeclNew rest := by
  have harg : impDecl rest = 'i' :: ("mport".toList ++ ' ' :: (OLDP ++ rest)) := rfl
  have hm : matchB ('i' :: ("mport".toList ++ ' ' :: (OLDP ++ rest))) =
      some ("import ".toList ++ NEWP, rest) := by
    rw [show ('i' : Char) :: ("mport".toList ++ ' ' :: (OLDP ++ rest)) =
      "import".toList ++ ' ' :: (OLDP ++ rest) from rfl, matchB_fire]
  have hsuf : rest <:+ ("mport".toList ++ ' ' :: (OLDP ++ rest)) :=
    ⟨"mport".toList ++ ' ' :: OLDP, rfl⟩
  rw [harg, subst_cons_some hm hsuf, subst_id_noWS_B h]
  rfl

theorem subC_impDeclNew {rest : List Char} (h : ∀ c ∈ rest, wsChar c = false) :
    subst matchC (impDeclNew rest) = impDeclNew rest := by
  have h0 : matchC (impDeclNew rest) = none := by
    have harg : impDeclNew rest = "import".toList ++ ' ' :: (NEWP ++ rest) := rfl
    have hN : NEWP ++ rest = 'c' :: ("om.carselling.oldcar".toList ++ rest) := rfl
    unfold matchC
    rw [harg, eatLit_self]
    dsimp only
    rw [eatWS1_space hN (by decide)]
    dsimp only
    rw [eatLit_none_incompat (show ¬ Compat "static".toList NEWP by decide)]
  have harg2 : impDeclNew rest = 'i' :: (("mport ".toList ++ NEWP) ++ rest) := rfl
  have h0' : matchC ('i' :: (("mport ".toList ++ NEWP) ++ rest)) = none := by
    rw [← harg2]; exact h0
  have hdr : ∀ i < ("mport ".toList ++ NEWP).length,
      ¬ Compat "import".toList (("mport ".toList ++ NEWP).drop i) := by decide
  rw [harg2, subst_cons_none h0',
    subst_append_none _ _ _ (fun i hi => matchC_none_incompat (hdr i hi)),
    subst_id_noWS_C h]

theorem update_impDecl {rest : List Char} (h : ∀ c ∈ rest, wsChar c = false) :
    update_package_and_imports (impDecl rest) =
      fixAppName (applyReplacements (impDeclNew rest)) := by
  unfold update_package_and_imports
  rw [subA_impDecl h, subB_impDecl h, subC_impDeclNew h]

theorem subA_impStaticDecl {rest : List Char} (h : ∀ c ∈ rest, wsChar c = false) :
    subst matchA (impStaticDecl rest) = impStaticDecl rest := by
  have hsp : impStaticDecl rest = ("import static ".toList ++ OLDP) ++ rest := by
    simp [impStaticDecl]
  have hdr : ∀ i < ("import static ".toList ++ OLDP).length,
      ¬ Compat "package".toList (("import static ".toList ++ OLDP).drop i) := by decide
  rw [hsp, subst_append_none _ _ _ (fun i hi => matchA_none_incompat (hdr i hi)),
    subst_id_noWS_A h]

theorem subB_impStaticDecl {rest : List Char} (h : ∀ c ∈ rest, wsChar c = false) :
    subst matchB (impStaticDecl rest) = impStaticDecl rest := by
  have h0 : matchB (impStaticDecl rest) = none := by
    have harg : impStaticDecl rest =
        "import".toList ++ ' ' :: ("static ".toList ++ (OLDP ++ rest)) := rfl
    have hS : "static ".toList ++ (OLDP ++ rest) =
        's' :: ("tatic ".toList ++ (OLDP ++ rest)) := rfl
    unfold matchB
    rw [harg, eatLit_self]
    dsimp only
    rw [eatWS1_space hS (by decide)]
    dsimp only
    rw [eatLit_none_incompat (show ¬ Compat OLDP "static ".toList by decide)]
  have harg2 : impStaticDecl rest = 'i' :: (("mport static ".toList ++ OLDP) ++ rest) := rfl
  have h0' : matchB ('i' :: (("mport static ".toList ++ OLDP) ++ rest)) = none := by
    rw [← harg2]; exact h0
  have hdr : ∀ i < ("mport static ".toList ++ OLDP).length,
      ¬ Compat "import".toList (("mport static ".toList ++ OLDP).drop i) := by decide
  rw [harg2, subst_cons_none h0',
    subst_append_none _ _ _ (fun i hi => matchB_none_incompat (hdr i hi)),
    subst_id_noWS_B h]

theorem matchC_fire {rest : List Char} :
    matchC ("import".toList ++ ' ' :: ("static".toList ++ ' ' :: (OLDP ++ rest))) =
      some ("import static ".toList ++ NEWP, rest) := by
  have hS : "static".toList ++ ' ' :: (OLDP ++ rest) =
      's' :: ("tatic".toList ++ ' ' :: (OLDP ++ rest)) := rfl
  have hO : OLDP ++ rest = 'c' :: ("om.CarSelling.Sell.the.old.Car".toList ++ rest) := rfl
  unfold matchC
  rw [eatLit_self]
  dsimp only
  rw [eatWS1_space hS (by decide)]
  dsimp only
  rw [eatLit_self]
  dsimp only
  rw [eatWS1_space hO (by decide)]
  dsimp only
  rw [eatLit_self]

theorem subC_impStaticDecl {rest : List Char} (h : ∀ c ∈ rest, wsChar c = false) :
    subst matchC (impStaticDecl rest) = impStaticDeclNew rest := by
  have harg : impStaticDecl rest =
      'i' :: ("mport".toList ++ ' ' :: ("static".toList ++ ' ' :: (OLDP ++ rest))) := rfl
  have hm : matchC ('i' :: ("mport".toList ++ ' ' :: ("static".toList ++ ' ' :: (OLDP ++ rest)))) =
      some ("import static ".toList ++ NEWP, rest) := by
    rw [show ('i' : Char) :: ("mport".toList ++ ' ' :: ("static".toList ++ ' ' :: (OLDP ++ rest))) =
      "import".toList ++ ' ' :: ("static".toList ++ ' ' :: (OLDP ++ rest)) from rfl, matchC_fire]
  have hsuf : rest <:+ ("mport".toList ++ ' ' :: ("static".toList ++ ' ' :: (OLDP ++ rest))) :=
    ⟨"mport".toList ++ ' ' :: ("static".toList ++ ' ' :: OLDP), rfl⟩
  rw [harg, subst_cons_some hm hsuf, subst_id_noWS_C h]
  rfl

theorem update_impStaticDecl {rest : List Char} (h : ∀ c ∈ rest, wsChar c = false) :
    update_package_and_imports (impStaticDecl rest) =
      fixAppName (applyReplacements (impStaticDeclNew rest)) := by
  unfold update_package_and_imports
  rw [subA_impStaticDecl h, subB_impStaticDecl h, subC_impStaticDecl h]

/-! Order-independence of the literal replacement rules.  The analysis uses
a simultaneous two-pattern scan: under the `CommOK` non-interference
conditions, each single-pattern replacement acts token-wise on that scan. -/

theorem pyReplace_nil (p r : List Char) : pyReplace p r [] = [] := rfl

theorem litM_pos {p : List Char} (r : List Char) (hp : p ≠ []) (x : List Char) :
    litM p r (p ++ x) = some (r, x) := by
  have h1 : p.isPrefixOf (p ++ x) = true :=
    List.isPrefixOf_iff_prefix.mpr (List.prefix_append _ _)
  have h2 : p.isEmpty = false := by
    cases p with
    | nil => exact absurd rfl hp
    | cons a t => rfl
  simp [litM, h1, h2, List.drop_left]

theorem litM_neg {p r s : List Char} (h : ¬ p <+: s) : litM p r s = none := by
  have h1 : p.isPrefixOf s = false := by
    cases hb : p.isPrefixOf s with
    | false => rfl
    | true => exact absurd (List.isPrefixOf_iff_prefix.mp hb) h
  simp [litM, h1]

theorem pyReplace_cons_matched {p r : List Char} (hp : p ≠ []) (x : List Char) :
    pyReplace p r (p ++ x) = r ++ pyReplace p r x := by
  obtain ⟨a, p', rfl⟩ : ∃ a p', p = a :: p' := by
    cases p with
    | nil => exact absurd rfl hp
    | cons a p' => exact ⟨a, p', rfl⟩
  have hm : litM (a :: p') r ((a :: p') ++ x) = some (r, x) := litM_pos r hp x
  rw [List.cons_append] at hm ⊢
  exact subst_cons_some hm ⟨p', rfl⟩

theorem pyReplace_cons_not {p r : List Char} {c : Char} {t : List Char}
    (h : ¬ p <+: (c :: t)) : pyReplace p r (c :: t) = c :: pyReplace p r t :=
  subst_cons_none (litM_neg h)

theorem pyReplace_append_skip {p r : List Char} (u x : List Char)
    (h : ∀ i, i < u.length → ¬ p <+: (u.drop i ++ x)) :
    pyReplace p r (u ++ x) = u ++ pyReplace p r x :=
  subst_append_none _ u x (fun i hi => litM_neg (h i hi))

theorem not_prefix_of_not_compat {d p : List Char} (hc : ¬ Compat d p) (x : List Char) :
    ¬ p <+: (d ++ x) := by
  intro h
  rcases prefix_append_cases h with h' | h'
  · exact hc (Or.inr h')
  · exact hc (Or.inl h')

theorem scanTwoF_nil (p₁ p₂ : List Char) (fuel : Nat) : scanTwoF p₁ p₂ fuel [] = [] := by
  cases fuel <;> rfl

theorem scanTwoF_fuel (p₁ p₂ : List Char) :
    ∀ f₁ f₂ s, s.length ≤ f₁ → s.length ≤ f₂ → scanTwoF p₁ p₂ f₁ s = scanTwoF p₁ p₂ f₂ s := by
  intro f₁
  induction f₁ with
  | zero =>
    intro f₂ s hs₁ _
    have : s = [] := List.length_eq_zero.mp (Nat.le_zero.mp hs₁)
    subst this
    simp [scanTwoF_nil]
  | succ f ih =>
    intro f₂ s hs₁ hs₂
    cases s with
    | nil => simp [scanTwoF_nil]
    | cons c t =>
      cases f₂ with
      | zero => simp at hs₂
      | succ f' =>
        have ht : t.length ≤ f := Nat.le_of_succ_le_succ (by simpa using hs₁)
        have ht' : t.length ≤ f' := Nat.le_of_succ_le_succ (by simpa using hs₂)
        show scanTwoF p₁ p₂ (f + 1) (c :: t) = scanTwoF p₁ p₂ (f' + 1) (c :: t)
        simp only [scanTwoF]
        by_cases h1 : p₁.isPrefixOf (c :: t) = true
        · have hk : (t.drop (p₁.length - 1)).length ≤ t.length := by simp [List.length_drop]
          simp only [h1, if_true]
          rw [ih _ _ (le_trans hk ht) (le_trans hk ht')]
        · have h1' : p₁.isPrefixOf (c :: t) = false := by
            cases hb : p₁.isPrefixOf (c :: t) with
            | false => rfl
            | true => exact absurd hb h1
          rw [h1']
          simp only [Bool.false_eq_true, if_false]
          by_cases h2 : p₂.isPrefixOf (c :: t) = true
          · have hk : (t.drop (p₂.length - 1)).length ≤ t.length := by simp [List.length_drop]
            simp only [h2, if_true]
            rw [ih _ _ (le_trans hk ht) (le_trans hk ht')]
          · have h2' : p₂.isPrefixOf (c :: t) = false := by
              cases hb : p₂.isPrefixOf (c :: t) with
              | false => rfl
              | true => exact absurd hb h2
            rw [h2']
            simp only [Bool.false_eq_true, if_false]
            rw [ih _ _ ht ht']

theorem scanTwo_nil (p₁ p₂ : List Char) : scanTwo p₁ p₂ [] = [] := rfl

theorem scanTwo_hit1 {p₁ : List Char} (p₂ : List Char) {x : List Char} (hp : p₁ ≠ []) :
    scanTwo p₁ p₂ (p₁ ++ x) = .hit1 :: scanTwo p₁ p₂ x := by
  obtain ⟨a, p', rfl⟩ : ∃ a p', p₁ = a :: p' := by
    cases p₁ with
    | nil => exact absurd rfl hp
    | cons a p' => exact ⟨a, p', rfl⟩
  have hpre : (a :: p').isPrefixOf (a :: (p' ++ x)) = true := by
    rw [← List.cons_append]
    exact List.isPrefixOf_iff_prefix.mpr (List.prefix_append _ _)
  show scanTwoF _ _ ((a :: p') ++ x).length ((a :: p') ++ x) = _
  rw [List.cons_append]
  simp only [List.length_cons, scanTwoF, hpre, if_true, Nat.add_sub_cancel]
  rw [List.drop_left]
  have : scanTwoF (a :: p') p₂ (p' ++ x).length x = scanTwoF (a :: p') p₂ x.length x :=
    scanTwoF_fuel _ _ _ _ x (by simp [List.length_append]) le_rfl
  rw [this]
  rfl

theorem scanTwo_hit2 {p₁ p₂ : List Char} {x : List Char} (hp : p₂ ≠ [])
    (h1 : ¬ p₁ <+: (p₂ ++ x)) :
    scanTwo p₁ p₂ (p₂ ++ x) = .hit2 :: scanTwo p₁ p₂ x := by
  obtain ⟨a, p', rfl⟩ : ∃ a p', p₂ = a :: p' := by
    cases p₂ with
    | nil => exact absurd rfl hp
    | cons a p' => exact ⟨a, p', rfl⟩
  have hpre : (a :: p').isPrefixOf (a :: (p' ++ x)) = true := by
    rw [← List.cons_append]
    exact List.isPrefixOf_iff_prefix.mpr (List.prefix_append _ _)
  have hno : p₁.isPrefixOf (a :: (p' ++ x)) = false := by
    cases hb : p₁.isPrefixOf (a :: (p' ++ x)) with
    | false => rfl
    | true =>
      rw [← List.cons_append] at hb
      exact absurd (List.isPrefixOf_iff_prefix.mp hb) h1
  show scanTwoF _ _ ((a :: p') ++ x).length ((a :: p') ++ x) = _
  rw [List.cons_append]
  simp only [List.length_cons, scanTwoF, hpre, hno, if_true, Bool.false_eq_true, if_false,
    Nat.add_sub_cancel]
  rw [List.drop_left]
  have : scanTwoF p₁ (a :: p') (p' ++ x).length x = scanTwoF p₁ (a :: p') x.length x :=
    scanTwoF_fuel _ _ _ _ x (by simp [List.length_append]) le_rfl
  rw [this]
  rfl

theorem scanTwo_chr {p₁ p₂ : List Char} {c : Char} {t : List Char}
    (h1 : ¬ p₁ <+: (c :: t)) (h2 : ¬ p₂ <+: (c :: t)) :
    scanTwo p₁ p₂ (c :: t) = .chr c :: scanTwo p₁ p₂ t := by
  have hno1 : p₁.isPrefixOf (c :: t) = false := by
    cases hb : p₁.isPrefixOf (c :: t) with
    | false => rfl
    | true => exact absurd (List.isPrefixOf_iff_prefix.mp hb) h1
  have hno2 : p₂.isPrefixOf (c :: t) = false := by
    cases hb : p₂.isPrefixOf (c :: t) with
    | false => rfl
    | true => exact absurd (List.isPrefixOf_iff_prefix.mp hb) h2
  show scanTwoF _ _ (c :: t).length (c :: t) = _
  simp only [List.length_cons, scanTwoF, hno1, hno2, if_false, Bool.false_eq_true]
  rfl

theorem length_append_cons_le {p x : List Char} {n : Nat} (hp : p ≠ [])
    (hs : (p ++ x).length ≤ n + 1) : x.length ≤ n := by
  have : 0 < p.length := List.length_pos.mpr hp
  simp only [List.length_append] at hs
  omega

theorem lemA (p₁ r₁ p₂ : List Char) (hp₁ : p₁ ≠ []) (hp₂ : p₂ ≠ [])
    (hA1 : ∀ i < p₂.length, ¬ Compat (p₂.drop i) p₁) :
    ∀ n s, s.length ≤ n → pyReplace p₁ r₁ s = render r₁ p₂ (scanTwo p₁ p₂ s) := by
  intro n
  induction n with
  | zero =>
    intro s hs
    have : s = [] := List.length_eq_zero.mp (Nat.le_zero.mp hs)
    subst this
    rfl
  | succ n ih =>
    intro s hs
    by_cases h1 : p₁ <+: s
    · obtain ⟨x, rfl⟩ := h1
      rw [pyReplace_cons_matched hp₁, scanTwo_hit1 p₂ hp₁]
      simp only [render]
      rw [ih x (length_append_cons_le hp₁ hs)]
    · by_cases h2 : p₂ <+: s
      · obtain ⟨x, rfl⟩ := h2
        rw [scanTwo_hit2 hp₂ h1]
        simp only [render]
        rw [pyReplace_append_skip p₂ x
          (fun i hi => not_prefix_of_not_compat (hA1 i hi) x)]
        rw [ih x (length_append_cons_le hp₂ hs)]
      · cases s with
        | nil => rfl
        | cons c t =>
          rw [pyReplace_cons_not h1, scanTwo_chr h1 h2]
          simp only [render]
          rw [ih t (Nat.le_of_succ_le_succ (by simpa using hs))]

theorem lemNC (p₁ p₂ r₁ : List Char) (hp₁ : p₁ ≠ []) (hp₂ : p₂ ≠ [])
    (hN1 : ∀ j < p₂.length, ¬ Compat (p₂.drop j) r₁) :
    ∀ n s, s.length ≤ n → ∀ j, j < p₂.length →
      (p₂.drop j) <+: render r₁ p₂ (scanTwo p₁ p₂ s) → (p₂.drop j) <+: s := by
  intro n
  induction n with
  | zero =>
    intro s hs j hj hpre
    have : s = [] := List.length_eq_zero.mp (Nat.le_zero.mp hs)
    subst this
    have hq : p₂.drop j = [] := by
      have := hpre
      rw [scanTwo_nil] at this
      exact List.prefix_nil.mp (by simpa [render] using this)
    rw [hq]
  | succ n ih =>
    intro s hs j hj hpre
    by_cases h1 : p₁ <+: s
    · obtain ⟨x, rfl⟩ := h1
      rw [scanTwo_hit1 p₂ hp₁] at hpre
      simp only [render] at hpre
      exact absurd (prefix_append_cases hpre) (hN1 j hj)
    · by_cases h2 : p₂ <+: s
      · obtain ⟨x, rfl⟩ := h2
        rw [scanTwo_hit2 hp₂ h1] at hpre
        simp only [render] at hpre
        rcases prefix_append_cases hpre with hq | hq
        · exact hq.trans (List.prefix_append p₂ x)
        · have hlen : (p₂.drop j).length ≤ p₂.length := by simp [List.length_drop]
          have heq : p₂ = p₂.drop j :=
            hq.eq_of_length (Nat.le_antisymm hq.length_le hlen)
          rw [← heq]
          exact List.prefix_append p₂ x
      · cases s with
        | nil =>
          have hq : p₂.drop j = [] := by
            have := hpre
            rw [scanTwo_nil] at this
            exact List.prefix_nil.mp (by simpa [render] using this)
          rw [hq]
        | cons c t =>
          rw [scanTwo_chr h1 h2] at hpre
          simp only [render] at hpre
          have hq : p₂.drop j = p₂[j] :: p₂.drop (j + 1) := List.drop_eq_getElem_cons hj
          rw [hq] at hpre ⊢
          rw [List.cons_prefix_cons] at hpre ⊢
          refine ⟨hpre.1, ?_⟩
          by_cases hj1 : j + 1 < p₂.length
          · exact ih t (Nat.le_of_succ_le_succ (by simpa using hs)) (j + 1) hj1 hpre.2
          · have hnil : p₂.drop (j + 1) = [] := List.drop_eq_nil_of_le (by omega)
            rw [hnil]
            exact List.nil_prefix

theorem lemB (p₁ r₁ p₂ r₂ : List Char) (hp₁ : p₁ ≠ []) (hp₂ : p₂ ≠ [])
    (hB1 : ∀ i < r₁.length, ¬ Compat (r₁.drop i) p₂)
    (hN1 : ∀ j < p₂.length, ¬ Compat (p₂.drop j) r₁) :
    ∀ n s, s.length ≤ n →
      pyReplace p₂ r₂ (render r₁ p₂ (scanTwo p₁ p₂ s)) = render r₁ r₂ (scanTwo p₁ p₂ s) := by
  intro n
  induction n with
  | zero =>
    intro s hs
    have : s = [] := List.length_eq_zero.mp (Nat.le_zero.mp hs)
    subst this
    rfl
  | succ n ih =>
    intro s hs
    by_cases h1 : p₁ <+: s
    · obtain ⟨x, rfl⟩ := h1
      rw [scanTwo_hit1 p₂ hp₁]
      simp only [render]
      rw [pyReplace_append_skip r₁ _
        (fun i hi => not_prefix_of_not_compat (hB1 i hi) _)]
      rw [ih x (length_append_cons_le hp₁ hs)]
    · by_cases h2 : p₂ <+: s
      · obtain ⟨x, rfl⟩ := h2
        rw [scanTwo_hit2 hp₂ h1]
        simp only [render]
        rw [pyReplace_cons_matched hp₂]
        rw [ih x (length_append_cons_le hp₂ hs)]
      · cases s with
        | nil => rfl
        | cons c t =>
          rw [scanTwo_chr h1 h2]
          simp only [render]
          have hnot : ¬ p₂ <+: (c :: render r₁ p₂ (scanTwo p₁ p₂ t)) := by
            intro hcon
            have hren : p₂ <+: render r₁ p₂ (scanTwo p₁ p₂ (c :: t)) := by
              rw [scanTwo_chr h1 h2]
              simpa [render] using hcon
            have h0 : (0 : Nat) < p₂.length := List.length_pos.mpr hp₂
            have := lemNC p₁ p₂ r₁ hp₁ hp₂ hN1 (c :: t).length (c :: t) le_rfl 0 h0
              (by simpa using hren)
            exact h2 (by simpa using this)
          rw [pyReplace_cons_not hnot]
          rw [ih t (Nat.le_of_succ_le_succ (by simpa using hs))]

theorem scanSwap (p₁ p₂ : List Char) (hp₁ : p₁ ≠ []) (hp₂ : p₂ ≠ [])
    (hc : ¬ Compat p₁ p₂) :
    ∀ n s, s.length ≤ n → scanTwo p₂ p₁ s = (scanTwo p₁ p₂ s).map swapTok := by
  intro n
  induction n with
  | zero =>
    intro s hs
    have : s = [] := List.length_eq_zero.mp (Nat.le_zero.mp hs)
    subst this
    rfl
  | succ n ih =>
    intro s hs
    by_cases h1 : p₁ <+: s
    · have h2 : ¬ p₂ <+: s := by
        intro h2
        exact hc (List.prefix_or_prefix_of_prefix h1 h2)
      obtain ⟨x, rfl⟩ := h1
      rw [scanTwo_hit2 hp₁ h2, scanTwo_hit1 p₂ hp₁]
      simp only [List.map_cons, swapTok]
      rw [ih x (length_append_cons_le hp₁ hs)]
    · by_cases h2 : p₂ <+: s
      · obtain ⟨x, rfl⟩ := h2
        rw [scanTwo_hit1 p₁ hp₂, scanTwo_hit2 hp₂ h1]
        simp only [List.map_cons, swapTok]
        rw [ih x (length_append_cons_le hp₂ hs)]
      · cases s with
        | nil => rfl
        | cons c t =>
          rw [scanTwo_chr h2 h1, scanTwo_chr h1 h2]
          simp only [List.map_cons, swapTok]
          rw [ih t (Nat.le_of_succ_le_succ (by simpa using hs))]

theorem renderSwap (a b : List Char) :
    ∀ toks : List Tok, render a b (toks.map swapTok) = render b a toks := by
  intro toks
  induction toks with
  | nil => rfl
  | cons t ts ih => cases t <;> simp [render, swapTok, ih]

theorem pyReplace_comm_of {a b : List Char × List Char} (h : CommOK a b) (s : List Char) :
    pyReplace b.1 b.2 (pyReplace a.1 a.2 s) = pyReplace a.1 a.2 (pyReplace b.1 b.2 s) := by
  obtain ⟨p₁, r₁⟩ := a
  obtain ⟨p₂, r₂⟩ := b
  obtain ⟨hp₁, hp₂, hA1, hA2, hB1, hB2, hN1, hN2⟩ := h
  have hcomp : ¬ Compat p₁ p₂ := by
    have := hA2 0 (List.length_pos.mpr hp₁)
    simpa using this
  have e1 : pyReplace p₁ r₁ s = render r₁ p₂ (scanTwo p₁ p₂ s) :=
    lemA p₁ r₁ p₂ hp₁ hp₂ hA1 s.length s le_rfl
  have e2 : pyReplace p₂ r₂ (render r₁ p₂ (scanTwo p₁ p₂ s)) = render r₁ r₂ (scanTwo p₁ p₂ s) :=
    lemB p₁ r₁ p₂ r₂ hp₁ hp₂ hB1 hN1 s.length s le_rfl
  have e3 : pyReplace p₂ r₂ s = render r₂ p₁ (scanTwo p₂ p₁ s) :=
    lemA p₂ r₂ p₁ hp₂ hp₁ hA2 s.length s le_rfl
  have e4 : pyReplace p₁ r₁ (render r₂ p₁ (scanTwo p₂ p₁ s)) = render r₂ r₁ (scanTwo p₂ p₁ s) :=
    lemB p₂ r₂ p₁ r₁ hp₂ hp₁ hB2 hN2 s.length s le_rfl
  have e5 : scanTwo p₂ p₁ s = (scanTwo p₁ p₂ s).map swapTok :=
    scanSwap p₁ p₂ hp₁ hp₂ hcomp s.length s le_rfl
  show pyReplace p₂ r₂ (pyReplace p₁ r₁ s) = pyReplace p₁ r₁ (pyReplace p₂ r₂ s)
  rw [e1, e2, e3, e4, e5, renderSwap]

/-! Lemmas about the run model: single-entry behaviour, frame properties,
write-list characterisation, counters. -/

theorem processEntry_notFound {ω : Oracle} {st : RunState} {e : String × String}
    (h : st.fs (oldSrcPath e.1) = none) :
    processEntry ω st e = { st with log := st.log ++ [.notFound e.1] } := by
  unfold processEntry
  rw [h]
  rfl

theorem processEntry_readErr {ω : Oracle} {st : RunState} {e : String × String}
    {c : List Char} {err : String}
    (hex : st.fs (oldSrcPath e.1) = some c) (hr : ω.readErr (oldSrcPath e.1) = some err) :
    processEntry ω st e =
      { st with fail := st.fail + 1, log := st.log ++ [.failed (pathName e.1) err] } := by
  unfold processEntry migrate_file
  rw [hex, hr]
  rfl

theorem processEntry_writeErr {ω : Oracle} {st : RunState} {e : String × String}
    {c : List Char} {err : String}
    (hex : st.fs (oldSrcPath e.1) = some c) (hr : ω.readErr (oldSrcPath e.1) = none)
    (hw : ω.writeErr (newSrcPath e.2) = some err) :
    processEntry ω st e =
      { st with fail := st.fail + 1, log := st.log ++ [.failed (pathName e.1) err] } := by
  unfold processEntry migrate_file
  rw [hex, hr, hw]
  rfl

theorem processEntry_ok {ω : Oracle} {st : RunState} {e : String × String} {c : List Char}
    (hex : st.fs (oldSrcPath e.1) = some c) (hr : ω.readErr (oldSrcPath e.1) = none)
    (hw : ω.writeErr (newSrcPath e.2) = none) :
    processEntry ω st e =
      { fs := fun p => if p = newSrcPath e.2 then some (update_package_and_imports c) else st.fs p,
        success := st.success + 1, fail := st.fail,
        log := st.log ++ [.migrated (pathName e.1) (newSrcPath e.2)] } := by
  unfold processEntry migrate_file
  rw [hex, hr, hw]
  rfl

theorem processEntry_fs_outside {ω : Oracle} {st : RunState} {e : String × String}
    {p : List String} (hne : p ≠ newSrcPath e.2) :
    (processEntry ω st e).fs p = st.fs p := by
  unfold processEntry migrate_file
  cases hex : st.fs (oldSrcPath e.1) with
  | none => rfl
  | some c =>
    cases hr : ω.readErr (oldSrcPath e.1) with
    | some err => rfl
    | none =>
      cases hw : ω.writeErr (newSrcPath e.2) with
      | some err => rfl
      | none => simp [hne]

theorem processEntry_counts {ω : Oracle} {st : RunState} {e : String × String} :
    (processEntry ω st e).success + (processEntry ω st e).fail =
      st.success + st.fail + (if (st.fs (oldSrcPath e.1)).isSome then 1 else 0) := by
  unfold processEntry migrate_file
  cases hex : st.fs (oldSrcPath e.1) with
  | none => simp
  | some c =>
    cases hr : ω.readErr (oldSrcPath e.1) with
    | some err => simp; omega
    | none =>
      cases hw : ω.writeErr (newSrcPath e.2) with
      | some err => simp; omega
      | none => simp; omega

theorem testStep_fs_outside {ω : Oracle} {st : RunState} {p : List String}
    (hne : p ≠ newTestPath TEST_NEW_REL) :
    (testStep ω st).fs p = st.fs p := by
  unfold testStep migrate_file
  cases hex : st.fs (oldTestPath TEST_OLD_REL) with
  | none => rfl
  | some c =>
    cases hr : ω.readErr (oldTestPath TEST_OLD_REL) with
    | some err => rfl
    | none =>
      cases hw : ω.writeErr (newTestPath TEST_NEW_REL) with
      | some err => rfl
      | none => simp [hne]

theorem testStep_counts {ω : Oracle} {st : RunState} :
    (testStep ω st).success + (testStep ω st).fail =
      st.success + st.fail + (if (st.fs (oldTestPath TEST_OLD_REL)).isSome then 1 else 0) := by
  unfold testStep migrate_file
  cases hex : st.fs (oldTestPath TEST_OLD_REL) with
  | none => simp
  | some c =>
    cases hr : ω.readErr (oldTestPath TEST_OLD_REL) with
    | some err => simp; omega
    | none =>
      cases hw : ω.writeErr (newTestPath TEST_NEW_REL) with
      | some err => simp; omega
      | none => simp; omega

theorem not_prefix_append_of_ne {a b : List String} {i : Nat} {u v : String}
    (ha : a[i]? = some u) (hb : b[i]? = some v) (hne : u ≠ v) (x : List String) :
    ¬ a <+: (b ++ x) := by
  rintro ⟨t, ht⟩
  have hia : i < a.length := (List.getElem?_eq_some.mp ha).1
  have hib : i < b.length := (List.getElem?_eq_some.mp hb).1
  have h1 : (a ++ t)[i]? = some u := by rw [List.getElem?_append_left hia]; exact ha
  have h2 : (b ++ x)[i]? = some v := by rw [List.getElem?_append_left hib]; exact hb
  rw [ht] at h1
  exact hne (Option.some.inj (h1.symm.trans h2))

theorem oldSrc_ne_newSrcPath (rel : String) {p : List String} (hp : OLD_SRC_SEGS <+: p) :
    p ≠ newSrcPath rel := by
  intro hcon
  subst hcon
  exact @not_prefix_append_of_ne OLD_SRC_SEGS NEW_SRC_SEGS 4 "CarSelling" "carselling"
    rfl rfl (by decide) (segs rel) hp

theorem oldTest_ne_newSrcPath (rel : String) {p : List String} (hp : OLD_TEST_SEGS <+: p) :
    p ≠ newSrcPath rel := by
  intro hcon
  subst hcon
  exact @not_prefix_append_of_ne OLD_TEST_SEGS NEW_SRC_SEGS 1 "test" "main"
    rfl rfl (by decide) (segs rel) hp

theorem oldSrc_ne_newTestPath (rel : String) {p : List String} (hp : OLD_SRC_SEGS <+: p) :
    p ≠ newTestPath rel := by
  intro hcon
  subst hcon
  exact @not_prefix_append_of_ne OLD_SRC_SEGS NEW_TEST_SEGS 1 "main" "test"
    rfl rfl (by decide) (segs rel) hp

theorem oldTest_ne_newTestPath (rel : String) {p : List String} (hp : OLD_TEST_SEGS <+: p) :
    p ≠ newTestPath rel := by
  intro hcon
  subst hcon
  exact @not_prefix_append_of_ne OLD_TEST_SEGS NEW_TEST_SEGS 4 "CarSelling" "carselling"
    rfl rfl (by decide) (segs rel) hp

theorem fold_fs_outside (ω : Oracle) :
    ∀ (es : List (String × String)) (st : RunState) (p : List String),
      (∀ e ∈ es, p ≠ newSrcPath e.2) →
      (es.foldl (processEntry ω) st).fs p = st.fs p := by
  intro es
  induction es with
  | nil => intro st p _; rfl
  | cons e es ih =>
    intro st p h
    rw [List.foldl_cons, ih _ p (fun a ha => h a (by simp [ha])),
      processEntry_fs_outside (h e (by simp))]

theorem applyWrites_nil (g : FileSys) : applyWrites [] g = g := by
  funext p
  rfl

theorem applyWrites_cons_eq (pw : List String) (v : List Char)
    (ws : List (List String × List Char)) (g : FileSys) :
    applyWrites ((pw, v) :: ws) g =
      applyWrites ws (fun p => if p = pw then some v else g p) := by
  funext p
  cases h : lastAssoc ws p with
  | some w =>
    have h1 : lastAssoc ((pw, v) :: ws) p = some w := by unfold lastAssoc; rw [h]
    simp [applyWrites, h1, h]
  | none =>
    have h1 : lastAssoc ((pw, v) :: ws) p = if p = pw then some v else none := by
      unfold lastAssoc
      rw [h]
    by_cases hpq : p = pw
    · subst hpq
      simp [applyWrites, h1, h]
    · simp [applyWrites, h1, h, hpq]

theorem lastAssoc_append (ws₁ ws₂ : List (List String × List Char)) (p : List String) :
    lastAssoc (ws₁ ++ ws₂) p =
      match lastAssoc ws₂ p with
      | some v => some v
      | none => lastAssoc ws₁ p := by
  induction ws₁ with
  | nil =>
    show lastAssoc ws₂ p = _
    cases lastAssoc ws₂ p <;> rfl
  | cons w ws ih =>
    obtain ⟨q, v⟩ := w
    have hcons : ∀ l : List (List String × List Char),
        lastAssoc ((q, v) :: l) p =
          match lastAssoc l p with
          | some w => some w
          | none => if p = q then some v else none := fun l => rfl
    rw [List.cons_append, hcons (ws ++ ws₂), ih, hcons ws]
    cases lastAssoc ws₂ p <;> cases lastAssoc ws p <;> rfl

theorem applyWrites_append (ws₁ ws₂ : List (List String × List Char)) (g : FileSys) :
    applyWrites (ws₁ ++ ws₂) g = applyWrites ws₂ (applyWrites ws₁ g) := by
  funext p
  unfold applyWrites
  rw [lastAssoc_append]
  cases lastAssoc ws₂ p <;> cases lastAssoc ws₁ p <;> rfl

theorem applyWrites_idem (ws : List (List String × List Char)) (g : FileSys) :
    applyWrites ws (applyWrites ws g) = applyWrites ws g := by
  funext p
  unfold applyWrites
  cases lastAssoc ws p <;> rfl

theorem fold_writes (ω : Oracle) (σ : FileSys) :
    ∀ (es : List (String × String)) (st : RunState),
      (∀ p, OLD_SRC_SEGS <+: p → st.fs p = σ p) →
      (es.foldl (processEntry ω) st).fs =
        applyWrites (es.filterMap (entryWrite ω σ)) st.fs := by
  intro es
  induction es with
  | nil =>
    intro st _
    exact (applyWrites_nil st.fs).symm
  | cons e es ih =>
    intro st h
    have hagree : st.fs (oldSrcPath e.1) = σ (oldSrcPath e.1) := h _ ⟨segs e.1, rfl⟩
    rw [List.foldl_cons, List.filterMap_cons]
    cases hσ : σ (oldSrcPath e.1) with
    | none =>
      have hex : st.fs (oldSrcPath e.1) = none := by rw [hagree, hσ]
      have hew : entryWrite ω σ e = none := by unfold entryWrite; rw [hσ]
      rw [hew, processEntry_notFound hex]
      exact ih _ (fun p hp => h p hp)
    | some c =>
      have hex : st.fs (oldSrcPath e.1) = some c := by rw [hagree, hσ]
      cases hr : ω.readErr (oldSrcPath e.1) with
      | some err =>
        have hew : entryWrite ω σ e = none := by unfold entryWrite; rw [hσ, hr]
        rw [hew, processEntry_readErr hex hr]
        exact ih _ (fun p hp => h p hp)
      | none =>
        cases hw : ω.writeErr (newSrcPath e.2) with
        | some err =>
          have hew : entryWrite ω σ e = none := by unfold entryWrite; rw [hσ, hr, hw]
          rw [hew, processEntry_writeErr hex hr hw]
          exact ih _ (fun p hp => h p hp)
        | none =>
          have hew : entryWrite ω σ e =
              some (newSrcPath e.2, update_package_and_imports c) := by
            unfold entryWrite
            rw [hσ, hr, hw]
          rw [hew, processEntry_ok hex hr hw, applyWrites_cons_eq]
          exact ih _ (fun p hp => by
            show (if p = newSrcPath e.2 then some (update_package_and_imports c) else st.fs p) = σ p
            rw [if_neg (oldSrc_ne_newSrcPath e.2 hp)]
            exact h p hp)

theorem testStep_writes (ω : Oracle) (σ : FileSys) (st : RunState)
    (h : ∀ p, OLD_TEST_SEGS <+: p → st.fs p = σ p) :
    (testStep ω st).fs = applyWrites (testWrite ω σ).toList st.fs := by
  have hagree : st.fs (oldTestPath TEST_OLD_REL) = σ (oldTestPath TEST_OLD_REL) :=
    h _ ⟨segs TEST_OLD_REL, rfl⟩
  unfold testStep migrate_file
  cases hσ : σ (oldTestPath TEST_OLD_REL) with
  | none =>
    have hex : st.fs (oldTestPath TEST_OLD_REL) = none := by rw [hagree, hσ]
    have hew : testWrite ω σ = none := by unfold testWrite; rw [hσ]
    rw [hex, hew]
    exact (applyWrites_nil st.fs).symm
  | some c =>
    have hex : st.fs (oldTestPath TEST_OLD_REL) = some c := by rw [hagree, hσ]
    rw [hex]
    cases hr : ω.readErr (oldTestPath TEST_OLD_REL) with
    | some err =>
      have hew : testWrite ω σ = none := by unfold testWrite; rw [hσ, hr]
      rw [hew]
      exact (applyWrites_nil st.fs).symm
    | none =>
      cases hw : ω.writeErr (newTestPath TEST_NEW_REL) with
      | some err =>
        have hew : testWrite ω σ = none := by unfold testWrite; rw [hσ, hr, hw]
        rw [hew]
        exact (applyWrites_nil st.fs).symm
      | none =>
        have hew : testWrite ω σ =
            some (newTestPath TEST_NEW_REL, update_package_and_imports c) := by
          unfold testWrite
          rw [hσ, hr, hw]
        rw [hew]
        simp only [Option.toList_some]
        rw [applyWrites_cons_eq, applyWrites_nil]
        simp [hex]

theorem mainRun_fs (ω : Oracle) (fs : FileSys) :
    (mainRun ω fs).fs = applyWrites (runWrites ω fs) fs := by
  unfold mainRun runWrites
  have h1 : (FILE_MAPPINGS.foldl (processEntry ω) (initState fs)).fs =
      applyWrites (FILE_MAPPINGS.filterMap (entryWrite ω fs)) fs :=
    fold_writes ω fs FILE_MAPPINGS (initState fs) (fun p _ => rfl)
  have h2 : ∀ p, OLD_TEST_SEGS <+: p →
      (FILE_MAPPINGS.foldl (processEntry ω) (initState fs)).fs p = fs p := by
    intro p hp
    rw [fold_fs_outside ω FILE_MAPPINGS _ p (fun e _ => oldTest_ne_newSrcPath e.2 hp)]
    rfl
  rw [testStep_writes ω fs _ h2, h1, applyWrites_append]

theorem mainRun_old_frame (ω : Oracle) (fs : FileSys) :
    ∀ p, OLD_SRC_SEGS <+: p ∨ OLD_TEST_SEGS <+: p → (mainRun ω fs).fs p = fs p := by
  intro p hp
  unfold mainRun
  have hne1 : p ≠ newTestPath TEST_NEW_REL := by
    rcases hp with hp | hp
    · exact oldSrc_ne_newTestPath _ hp
    · exact oldTest_ne_newTestPath _ hp
  have hne2 : ∀ e ∈ FILE_MAPPINGS, p ≠ newSrcPath e.2 := by
    intro e _
    rcases hp with hp | hp
    · exact oldSrc_ne_newSrcPath _ hp
    · exact oldTest_ne_newSrcPath _ hp
  rw [testStep_fs_outside hne1, fold_fs_outside ω FILE_MAPPINGS _ p hne2]
  rfl

theorem entryWrite_congr {ω : Oracle} {σ₁ σ₂ : FileSys} (e : String × String)
    (h : σ₁ (oldSrcPath e.1) = σ₂ (oldSrcPath e.1)) :
    entryWrite ω σ₁ e = entryWrite ω σ₂ e := by
  unfold entryWrite
  rw [h]

theorem testWrite_congr {ω : Oracle} {σ₁ σ₂ : FileSys}
    (h : σ₁ (oldTestPath TEST_OLD_REL) = σ₂ (oldTestPath TEST_OLD_REL)) :
    testWrite ω σ₁ = testWrite ω σ₂ := by
  unfold testWrite
  rw [h]

theorem runWrites_congr {ω : Oracle} {σ₁ σ₂ : FileSys}
    (h : ∀ p, OLD_SRC_SEGS <+: p ∨ OLD_TEST_SEGS <+: p → σ₁ p = σ₂ p) :
    runWrites ω σ₁ = runWrites ω σ₂ := by
  unfold runWrites
  rw [List.filterMap_congr (fun e _ => entryWrite_congr e (h _ (Or.inl ⟨segs e.1, rfl⟩))),
    testWrite_congr (h _ (Or.inr ⟨segs TEST_OLD_REL, rfl⟩))]

theorem mainRun_idem_fs (ω : Oracle) (fs : FileSys) :
    (mainRun ω (mainRun ω fs).fs).fs = (mainRun ω fs).fs := by
  rw [mainRun_fs ω ((mainRun ω fs).fs),
    runWrites_congr (fun p hp => mainRun_old_frame ω fs p hp),
    mainRun_fs ω fs, applyWrites_idem]

theorem fold_counts (ω : Oracle) (σ : FileSys) :
    ∀ (es : List (String × String)) (st : RunState),
      (∀ p, OLD_SRC_SEGS <+: p → st.fs p = σ p) →
      (es.foldl (processEntry ω) st).success + (es.foldl (processEntry ω) st).fail =
        st.success + st.fail + es.countP (fun e => (σ (oldSrcPath e.1)).isSome) := by
  intro es
  induction es with
  | nil =>
    intro st _
    simp [List.countP_nil]
  | cons e es ih =>
    intro st h
    have hagree : st.fs (oldSrcPath e.1) = σ (oldSrcPath e.1) := h _ ⟨segs e.1, rfl⟩
    have hstep : ∀ p, OLD_SRC_SEGS <+: p → (processEntry ω st e).fs p = σ p := by
      intro p hp
      rw [processEntry_fs_outside (oldSrc_ne_newSrcPath e.2 hp)]
      exact h p hp
    rw [List.foldl_cons, ih _ hstep, List.countP_cons]
    have hc := @processEntry_counts ω st e
    rw [hagree] at hc
    cases hs : (σ (oldSrcPath e.1)).isSome with
    | false => rw [hs] at hc; simp at hc ⊢; omega
    | true => rw [hs] at hc; simp at hc ⊢; omega

theorem mainRun_counts (ω : Oracle) (fs : FileSys) :
    (mainRun ω fs).success + (mainRun ω fs).fail = countExisting fs + testDelta fs := by
  unfold mainRun countExisting testDelta
  have hfold := fold_counts ω fs FILE_MAPPINGS (initState fs) (fun p _ => rfl)
  have htest := @testStep_counts ω (FILE_MAPPINGS.foldl (processEntry ω) (initState fs))
  have hpres : (FILE_MAPPINGS.foldl (processEntry ω) (initState fs)).fs
      (oldTestPath TEST_OLD_REL) = fs (oldTestPath TEST_OLD_REL) :=
    fold_fs_outside ω FILE_MAPPINGS (initState fs) (oldTestPath TEST_OLD_REL)
      (fun e _ => oldTest_ne_newSrcPath e.2 ⟨segs TEST_OLD_REL, rfl⟩)
  rw [hpres] at htest
  rw [show (initState fs).success = 0 from rfl, show (initState fs).fail = 0 from rfl] at hfold
  omega

theorem processEntry_happy {st : RunState} {e : String × String} :
    (processEntry happyOracle st e).success =
      st.success + (if (st.fs (oldSrcPath e.1)).isSome then 1 else 0) ∧
    (processEntry happyOracle st e).fail = st.fail := by
  unfold processEntry migrate_file happyOracle
  cases hex : st.fs (oldSrcPath e.1) with
  | none => simp
  | some c => simp

theorem testStep_happy {st : RunState} :
    (testStep happyOracle st).success =
      st.success + (if (st.fs (oldTestPath TEST_OLD_REL)).isSome then 1 else 0) ∧
    (testStep happyOracle st).fail = st.fail := by
  unfold testStep migrate_file happyOracle
  cases hex : st.fs (oldTestPath TEST_OLD_REL) with
  | none => simp
  | some c => simp

theorem fold_happy (σ : FileSys) :
    ∀ (es : List (String × String)) (st : RunState),
      (∀ p, OLD_SRC_SEGS <+: p → st.fs p = σ p) →
      (es.foldl (processEntry happyOracle) st).success =
        st.success + es.countP (fun e => (σ (oldSrcPath e.1)).isSome) ∧
      (es.foldl (processEntry happyOracle) st).fail = st.fail := by
  intro es
  induction es with
  | nil =>
    intro st _
    simp [List.countP_nil]
  | cons e es ih =>
    intro st h
    have hagree : st.fs (oldSrcPath e.1) = σ (oldSrcPath e.1) := h _ ⟨segs e.1, rfl⟩
    have hstep : ∀ p, OLD_SRC_SEGS <+: p → (processEntry happyOracle st e).fs p = σ p := by
      intro p hp
      rw [processEntry_fs_outside (oldSrc_ne_newSrcPath e.2 hp)]
      exact h p hp
    have hpe := @processEntry_happy st e
    rw [hagree] at hpe
    have hih := ih (processEntry happyOracle st e) hstep
    rw [List.foldl_cons, List.countP_cons]
    refine ⟨?_, ?_⟩
    · rw [hih.1, hpe.1]
      cases hs : (σ (oldSrcPath e.1)).isSome with
      | false => simp [hs]
      | true => simp [hs]; omega
    · rw [hih.2, hpe.2]

theorem mainRun_happy (fs : FileSys) :
    (mainRun happyOracle fs).success = countExisting fs + testDelta fs ∧
    (mainRun happyOracle fs).fail = 0 := by
  unfold mainRun countExisting testDelta
  have hfold := fold_happy fs FILE_MAPPINGS (initState fs) (fun p _ => rfl)
  have htest := @testStep_happy (FILE_MAPPINGS.foldl (processEntry happyOracle) (initState fs))
  have hpres : (FILE_MAPPINGS.foldl (processEntry happyOracle) (initState fs)).fs
      (oldTestPath TEST_OLD_REL) = fs (oldTestPath TEST_OLD_REL) :=
    fold_fs_outside happyOracle FILE_MAPPINGS (initState fs) (oldTestPath TEST_OLD_REL)
      (fun e _ => oldTest_ne_newSrcPath e.2 ⟨segs TEST_OLD_REL, rfl⟩)
  rw [hpres] at htest
  rw [show (initState fs).success = 0 from rfl] at hfold
  rw [show (initState fs).fail = 0 from rfl] at hfold
  refine ⟨?_, ?_⟩
  · rw [htest.1, hfold.1]
    omega
  · rw [htest.2, hfold.2]

theorem entryWrite_path {ω : Oracle} {σ : FileSys} {e : String × String}
    {w : List String × List Char} (h : entryWrite ω σ e = some w) :
    w.1 = newSrcPath e.2 := by
  unfold entryWrite at h
  cases h1 : σ (oldSrcPath e.1) with
  | none => rw [h1] at h; cases h
  | some c =>
    rw [h1] at h
    cases h2 : ω.readErr (oldSrcPath e.1) with
    | some err => rw [h2] at h; cases h
    | none =>
      rw [h2] at h
      cases h3 : ω.writeErr (newSrcPath e.2) with
      | some err => rw [h3] at h; cases h
      | none =>
        rw [h3] at h
        cases h
        rfl

theorem testWrite_path {ω : Oracle} {σ : FileSys} {w : List String × List Char}
    (h : testWrite ω σ = some w) : w.1 = newTestPath TEST_NEW_REL := by
  unfold testWrite at h
  cases h1 : σ (oldTestPath TEST_OLD_REL) with
  | none => rw [h1] at h; cases h
  | some c =>
    rw [h1] at h
    cases h2 : ω.readErr (oldTestPath TEST_OLD_REL) with
    | some err => rw [h2] at h; cases h
    | none =>
      rw [h2] at h
      cases h3 : ω.writeErr (newTestPath TEST_NEW_REL) with
      | some err => rw [h3] at h; cases h
      | none =>
        rw [h3] at h
        cases h
        rfl

theorem lastAssoc_none_of_ne (p : List String) :
    ∀ ws : List (List String × List Char), (∀ w ∈ ws, w.1 ≠ p) → lastAssoc ws p = none := by
  intro ws
  induction ws with
  | nil => intro _; rfl
  | cons w ws ih =>
    intro h
    obtain ⟨q, v⟩ := w
    have hq : q ≠ p := h (q, v) (by simp)
    have hcons : lastAssoc ((q, v) :: ws) p =
        match lastAssoc ws p with
        | some w => some w
        | none => if p = q then some v else none := rfl
    have hpq : ¬ p = q := fun hcon => hq hcon.symm
    rw [hcons, ih (fun w hw => h w (by simp [hw]))]
    simp [hpq]

theorem lastAssoc_last_write (ws₁ : List (List String × List Char)) (p : List String)
    (v : List Char) (ws₂ : List (List String × List Char)) (h2 : ∀ w ∈ ws₂, w.1 ≠ p) :
    lastAssoc (ws₁ ++ (p, v) :: ws₂) p = some v := by
  rw [lastAssoc_append]
  have hmid : lastAssoc ((p, v) :: ws₂) p = some v := by
    have hcons : lastAssoc ((p, v) :: ws₂) p =
        match lastAssoc ws₂ p with
        | some w => some w
        | none => if p = p then some v else none := rfl
    rw [hcons, lastAssoc_none_of_ne p ws₂ h2]
    simp
  rw [hmid]

theorem lastAssoc_isSome_of_mem :
    ∀ (ws : List (List String × List Char)) (p : List String) (v : List Char),
      (p, v) ∈ ws → (lastAssoc ws p).isSome = true := by
  intro ws
  induction ws with
  | nil => intro p v h; cases h
  | cons w ws ih =>
    intro p v h
    obtain ⟨q, u⟩ := w
    have hcons : lastAssoc ((q, u) :: ws) p =
        match lastAssoc ws p with
        | some w => some w
        | none => if p = q then some u else none := rfl
    rw [hcons]
    cases hla : lastAssoc ws p with
    | some w' => simp
    | none =>
      rcases List.mem_cons.mp h with heq | hmem
      · have hpq : p = q := congrArg Prod.fst heq
        simp [hpq]
      · have := ih p v hmem
        rw [hla] at this
        simp at this

theorem applyWrites_at {ws : List (List String × List Char)} {g : FileSys}
    {p : List String} {v : List Char} (h : lastAssoc ws p = some v) :
    applyWrites ws g p = some v := by
  unfold applyWrites
  rw [h]

theorem applyWrites_isSome {ws : List (List String × List Char)} {g : FileSys}
    {p : List String} (h : (lastAssoc ws p).isSome = true) :
    (applyWrites ws g p).isSome = true := by
  unfold applyWrites
  cases hla : lastAssoc ws p with
  | some v => simp
  | none => rw [hla] at h; simp at h

/-! The claims. -/

/-- Claim C1.  The specification's end-to-end scenario requires the content
produced by `update_package_and_imports` for a file containing
`package com.CarSelling.Sell.the.old.Car.model;` and
`import com.CarSelling.Sell.the.old.Car.dto.UserDTO.LoginRequest;` to
contain `package com.carselling.oldcar.entity;` and
`import com.carselling.oldcar.dto.auth.LoginRequest;`.  The code delivers
the import line but leaves the package declaration as
`package com.carselling.oldcar.model;`: the literal rule
`...model.` → `...entity.` requires a trailing dot, which a bare package
declaration does not have, so the migrated entity file keeps a `model`
package even though it is written into the `entity` directory.  This
theorem evaluates the code at the failing input. -/
theorem claim_C1_behaviour :
    update_package_and_imports contentC1 =
      "package com.carselling.oldcar.model;\nimport com.carselling.oldcar.dto.auth.LoginRequest;\n".toList ∧
    occurs "import com.carselling.oldcar.dto.auth.LoginRequest;".toList
      (update_package_and_imports contentC1) = true ∧
    occurs "package com.carselling.oldcar.entity;".toList
      (update_package_and_imports contentC1) = false := by
  refine ⟨by decide, by decide, by decide⟩

/-- Claim C2, counterexample.  The claim says the sub-package suffix of a
package declaration is unchanged by the migration; but for the suffix
`.model.chat` the literal replacement rules rewrite it to `.entity.chat`,
so the original suffix does not survive. -/
theorem claim_C2_counterexample :
    update_package_and_imports (pkgDecl ".model.chat".toList) =
      "package com.carselling.oldcar.entity.chat;".toList ∧
    occurs ".model.chat".toList
      (update_package_and_imports (pkgDecl ".model.chat".toList)) = false := by
  refine ⟨by decide, by decide⟩

/-- Claim C2, amended.  For every mapping entry whose source file exists,
the destination file exists after a (failure-free) run; and the package
declaration is rewritten to the new package name with the original
sub-package suffix preserved by the package-declaration rewrite itself and
then subjected to the literal replacement rules and the application-class
rename (which may change it, e.g. `.model.chat` becomes `.entity.chat`). -/
theorem claim_C2_amended :
    (∀ (fs : FileSys) (e : String × String), e ∈ FILE_MAPPINGS →
      (fs (oldSrcPath e.1)).isSome = true →
      ((mainRun happyOracle fs).fs (newSrcPath e.2)).isSome = true) ∧
    (∀ sfx : List Char, SuffixOK sfx →
      update_package_and_imports (pkgDecl sfx) =
        fixAppName (applyReplacements (pkgDeclNew sfx))) := by
  constructor
  · intro fs e he hex
    rw [mainRun_fs]
    apply applyWrites_isSome
    obtain ⟨c, hc⟩ := Option.isSome_iff_exists.mp hex
    have hew : entryWrite happyOracle fs e =
        some (newSrcPath e.2, update_package_and_imports c) := by
      unfold entryWrite
      rw [hc]
      rfl
    have hmem : (newSrcPath e.2, update_package_and_imports c) ∈ runWrites happyOracle fs := by
      unfold runWrites
      exact List.mem_append_left _ (List.mem_filterMap.mpr ⟨e, he, hew⟩)
    exact lastAssoc_isSome_of_mem _ _ _ hmem
  · intro sfx h
    exact update_pkgDecl h

/-- Claim C2, witness: the amended claim at a concrete filesystem holding
`model/User.java` and at the concrete suffix `.chat`. -/
theorem claim_C2_witness :
    ((mainRun happyOracle
        (fun p => if p = oldSrcPath "model/User.java" then some ['x'] else none)).fs
      (newSrcPath "entity/User.java")).isSome = true ∧
    update_package_and_imports (pkgDecl ".chat".toList) =
      fixAppName (applyReplacements (pkgDeclNew ".chat".toList)) :=
  ⟨claim_C2_amended.1 _ ("model/User.java", "entity/User.java") (by decide) (by decide),
   claim_C2_amended.2 _ (Or.inr ⟨"chat".toList, rfl, by decide, by decide⟩)⟩

/-- Claim C3, counterexample.  The claim says an import of the old package
is rewritten with the remainder of the import path unchanged; but for
`import com.CarSelling.Sell.the.old.Car.dto.UserDTO.LoginRequest;` the
literal rules subsequently rewrite the remainder `.dto.UserDTO.LoginRequest`
to `.dto.auth.LoginRequest`, so the original remainder does not survive. -/
theorem claim_C3_counterexample :
    update_package_and_imports (impDecl ".dto.UserDTO.LoginRequest;".toList) =
      "import com.carselling.oldcar.dto.auth.LoginRequest;".toList ∧
    occurs ".dto.UserDTO.LoginRequest".toList
      (update_package_and_imports (impDecl ".dto.UserDTO.LoginRequest;".toList)) = false := by
  refine ⟨by decide, by decide⟩

/-- Claim C3, amended.  Every import statement (plain or static) beginning
with the old package name is rewritten to begin with the new package name;
the remainder is unchanged by the prefix substitution itself, and is then
subjected to the literal replacement rules and the application-class
rename.  `rest` is the remainder of the line, any whitespace-free text. -/
theorem claim_C3_amended (rest : List Char) (h : ∀ c ∈ rest, wsChar c = false) :
    update_package_and_imports (impDecl rest) =
      fixAppName (applyReplacements (impDeclNew rest)) ∧
    update_package_and_imports (impStaticDecl rest) =
      fixAppName (applyReplacements (impStaticDeclNew rest)) :=
  ⟨update_impDecl h, update_impStaticDecl h⟩

/-- Claim C3, witness: the amended claim at the concrete remainder
`.dto.CarDTO.CarInput;`. -/
theorem claim_C3_witness :
    update_package_and_imports (impDecl ".dto.CarDTO.CarInput;".toList) =
      fixAppName (applyReplacements (impDeclNew ".dto.CarDTO.CarInput;".toList)) ∧
    update_package_and_imports (impStaticDecl ".dto.CarDTO.CarInput;".toList) =
      fixAppName (applyReplacements (impStaticDeclNew ".dto.CarDTO.CarInput;".toList)) :=
  claim_C3_amended ".dto.CarDTO.CarInput;".toList (by decide)

/-- Claim C4, counterexample.  Two distinct entries of the mapping table
share the same new relative path `entity/chat/Chat.java`, so new paths are
not unique. -/
theorem claim_C4_counterexample :
    ("model/Chat.java", "entity/chat/Chat.java") ∈ FILE_MAPPINGS ∧
    ("model/chat/Chat.java", "entity/chat/Chat.java") ∈ FILE_MAPPINGS ∧
    ("model/Chat.java" : String) ≠ "model/chat/Chat.java" := by
  refine ⟨by decide, by decide, by decide⟩

/-- Claim C4, amended.  In the static file-mapping table the old relative
paths are pairwise distinct, but the new relative paths are not (the five
chat entity destinations each occur twice). -/
theorem claim_C4_amended :
    (FILE_MAPPINGS.map Prod.fst).Nodup ∧ ¬ (FILE_MAPPINGS.map Prod.snd).Nodup := by
  constructor
  · decide
  · decide

/-- Claim C5.  A mapping entry whose resolved old path does not exist
changes neither the filesystem nor the success or failure counter, only
appends a not-found report to the console log, and the fold over the
remaining entries continues from that state. -/
theorem claim_C5 (ω : Oracle) (st : RunState) (old new : String)
    (rest : List (String × String)) (h : st.fs (oldSrcPath old) = none) :
    processEntry ω st (old, new) = { st with log := st.log ++ [.notFound old] } ∧
    ((old, new) :: rest).foldl (processEntry ω) st =
      rest.foldl (processEntry ω) { st with log := st.log ++ [.notFound old] } := by
  refine ⟨@processEntry_notFound ω st (old, new) h, ?_⟩
  rw [List.foldl_cons, @processEntry_notFound ω st (old, new) h]

/-- Claim C5, witness: the not-found behaviour at a concrete empty
filesystem. -/
theorem claim_C5_witness :
    processEntry happyOracle (initState (fun _ => none)) ("model/User.java", "entity/User.java") =
      { initState (fun _ => none) with
        log := (initState (fun _ => none)).log ++ [LogEntry.notFound "model/User.java"] } ∧
    (("model/User.java", "entity/User.java") :: []).foldl (processEntry happyOracle)
        (initState (fun _ => none)) =
      [].foldl (processEntry happyOracle)
        { initState (fun _ => none) with
          log := (initState (fun _ => none)).log ++ [LogEntry.notFound "model/User.java"] } :=
  claim_C5 happyOracle (initState (fun _ => none)) "model/User.java" "entity/User.java" [] rfl

/-- Claim C6.  An exception during a file's read (first conjunct) or write
(second conjunct) is caught within the per-file step: the state changes
only by one failure count and a log line carrying the file name and the
error message, the filesystem is unchanged, and processing continues.
Third conjunct: for every environment and filesystem the run completes
with a final summary accounting for exactly the processed files
(success + failure = number of existing sources). -/
theorem claim_C6 (ω : Oracle) (st : RunState) (old new : String) (c : List Char)
    (err : String) (fs : FileSys) :
    (st.fs (oldSrcPath old) = some c → ω.readErr (oldSrcPath old) = some err →
      processEntry ω st (old, new) =
        { st with fail := st.fail + 1, log := st.log ++ [.failed (pathName old) err] }) ∧
    (st.fs (oldSrcPath old) = some c → ω.readErr (oldSrcPath old) = none →
      ω.writeErr (newSrcPath new) = some err →
      processEntry ω st (old, new) =
        { st with fail := st.fail + 1, log := st.log ++ [.failed (pathName old) err] }) ∧
    (mainRun ω fs).success + (mainRun ω fs).fail = countExisting fs + testDelta fs := by
  refine ⟨?_, ?_, mainRun_counts ω fs⟩
  · intro hex hr
    exact @processEntry_readErr ω st (old, new) c err hex hr
  · intro hex hr hw
    exact @processEntry_writeErr ω st (old, new) c err hex hr hw

/-- Claim C6, witness: a concrete failing read, a concrete failing write,
and the summary equation at a concrete filesystem. -/
theorem claim_C6_witness :
    processEntry
        ⟨fun p => if p = oldSrcPath "model/User.java" then some "boom" else none, fun _ => none⟩
        (initState (fun p => if p = oldSrcPath "model/User.java" then some ['x'] else none))
        ("model/User.java", "entity/User.java") =
      { initState (fun p => if p = oldSrcPath "model/User.java" then some ['x'] else none) with
        fail := (initState (fun p => if p = oldSrcPath "model/User.java" then some ['x'] else none)).fail + 1,
        log := (initState (fun p => if p = oldSrcPath "model/User.java" then some ['x'] else none)).log ++
          [LogEntry.failed (pathName "model/User.java") "boom"] } ∧
    processEntry
        ⟨fun _ => none, fun p => if p = newSrcPath "entity/User.java" then some "disk full" else none⟩
        (initState (fun p => if p = oldSrcPath "model/User.java" then some ['x'] else none))
        ("model/User.java", "entity/User.java") =
      { initState (fun p => if p = oldSrcPath "model/User.java" then some ['x'] else none) with
        fail := (initState (fun p => if p = oldSrcPath "model/User.java" then some ['x'] else none)).fail + 1,
        log := (initState (fun p => if p = oldSrcPath "model/User.java" then some ['x'] else none)).log ++
          [LogEntry.failed (pathName "model/User.java") "disk full"] } ∧
    (mainRun happyOracle (fun _ => none)).success + (mainRun happyOracle (fun _ => none)).fail =
      countExisting (fun _ => none) + testDelta (fun _ => none) :=
  ⟨(claim_C6
      ⟨fun p => if p = oldSrcPath "model/User.java" then some "boom" else none, fun _ => none⟩
      (initState (fun p => if p = oldSrcPath "model/User.java" then some ['x'] else none))
      "model/User.java" "entity/User.java" ['x'] "boom" (fun _ => none)).1
      (by decide) (by decide),
   (claim_C6
      ⟨fun _ => none, fun p => if p = newSrcPath "entity/User.java" then some "disk full" else none⟩
      (initState (fun p => if p = oldSrcPath "model/User.java" then some ['x'] else none))
      "model/User.java" "entity/User.java" ['x'] "disk full" (fun _ => none)).2.1
      (by decide) (by decide) (by decide),
   (claim_C6 happyOracle (initState (fun _ => none)) "x" "y" [] "e" (fun _ => none)).2.2⟩

/-- Claim C7.  Running the tool a second time on the filesystem produced by
a first run reproduces that filesystem exactly: the second run reads the
untouched old tree, computes the same rewrites, and overwrites every
destination with byte-identical content, so no rewrite effects accumulate. -/
theorem claim_C7 (ω : Oracle) (fs : FileSys) :
    (mainRun ω (mainRun ω fs).fs).fs = (mainRun ω fs).fs :=
  mainRun_idem_fs ω fs

/-- Claim C8.  Applying the five literal replacement rules of
`replacements` in any order yields the same result as applying them in the
code's fixed order, for every input string. -/
theorem claim_C8 (l : List (List Char × List Char)) (hperm : l.Perm RULES) (s : List Char) :
    l.foldl (fun acc pr => pyReplace pr.1 pr.2 acc) s = applyReplacements s := by
  have hOK : ∀ a ∈ RULES, ∀ b ∈ RULES, CommOK a b ∨ a = b := by decide
  have hcomm : ∀ x ∈ l, ∀ y ∈ l, ∀ z : List Char,
      pyReplace y.1 y.2 (pyReplace x.1 x.2 z) = pyReplace x.1 x.2 (pyReplace y.1 y.2 z) := by
    intro x hx y hy z
    rcases hOK x (hperm.subset hx) y (hperm.subset hy) with hok | heq
    · exact pyReplace_comm_of hok z
    · rw [heq]
  exact hperm.foldl_eq' hcomm s

/-- Claim C8, witness: the five rules applied in reverse order to a
concrete import line give the code's result. -/
theorem claim_C8_witness :
    RULES.reverse.Perm RULES ∧
    RULES.reverse.foldl (fun acc pr => pyReplace pr.1 pr.2 acc)
        "import com.carselling.oldcar.model.User;".toList =
      applyReplacements "import com.carselling.oldcar.model.User;".toList :=
  ⟨List.reverse_perm RULES, claim_C8 RULES.reverse (List.reverse_perm RULES) _⟩

/-- Claim C9.  After a run, every path below the old source root or the old
test root holds exactly the content it held before the run: the tool only
ever writes below the new source and new test roots, which are disjoint
from the old ones. -/
theorem claim_C9 (ω : Oracle) (fs : FileSys) (p : List String)
    (h : OLD_SRC_SEGS <+: p ∨ OLD_TEST_SEGS <+: p) :
    (mainRun ω fs).fs p = fs p :=
  mainRun_old_frame ω fs p h

/-- Claim C9, witness: the frame property at the old source root itself in
a run over an empty filesystem. -/
theorem claim_C9_witness :
    (mainRun happyOracle (fun _ => none)).fs OLD_SRC_SEGS =
      (fun _ : List String => (none : Option (List Char))) OLD_SRC_SEGS :=
  claim_C9 happyOracle (fun _ => none) OLD_SRC_SEGS (Or.inl (List.prefix_refl _))

/-- Claim C10, counterexample.  The claim cites the duplicate chat
repository entries as mapping distinct old paths to the same new relative
path; in fact the two ChatRepository entries map to the distinct
destinations `repository/ChatRepository.java` and
`repository/chat/ChatRepository.java`. -/
theorem claim_C10_counterexample :
    ("repository/ChatRepository.java", "repository/ChatRepository.java") ∈ FILE_MAPPINGS ∧
    ("repository/chat/ChatRepository.java", "repository/chat/ChatRepository.java") ∈ FILE_MAPPINGS ∧
    (∀ e ∈ FILE_MAPPINGS, e.1 = "repository/ChatRepository.java" →
      e.2 = "repository/ChatRepository.java") ∧
    (∀ e ∈ FILE_MAPPINGS, e.1 = "repository/chat/ChatRepository.java" →
      e.2 = "repository/chat/ChatRepository.java") ∧
    ("repository/ChatRepository.java" : String) ≠ "repository/chat/ChatRepository.java" := by
  refine ⟨by decide, by decide, by decide, by decide, by decide⟩

/-- Claim C10, amended.  The chat entity entries `model/Chat.java` and
`model/chat/Chat.java` map distinct old paths to the same destination
`entity/chat/Chat.java`.  When both source files exist and the environment
raises no exception, each of the two per-file steps succeeds and adds one
to the success counter, every existing entry is counted as a success, and
the destination file ends up with the rewritten content of the entry that
occurs later in the table's iteration order (`model/chat/Chat.java`):
the last writer wins. -/
theorem claim_C10_amended (fs : FileSys) (c₁ c₂ : List Char)
    (h₁ : fs (oldSrcPath "model/Chat.java") = some c₁)
    (h₂ : fs (oldSrcPath "model/chat/Chat.java") = some c₂) :
    (∀ st : RunState, st.fs (oldSrcPath "model/Chat.java") = some c₁ →
      (processEntry happyOracle st ("model/Chat.java", "entity/chat/Chat.java")).success =
        st.success + 1) ∧
    (∀ st : RunState, st.fs (oldSrcPath "model/chat/Chat.java") = some c₂ →
      (processEntry happyOracle st ("model/chat/Chat.java", "entity/chat/Chat.java")).success =
        st.success + 1) ∧
    (mainRun happyOracle fs).success = countExisting fs + testDelta fs ∧
    (mainRun happyOracle fs).fs (newSrcPath "entity/chat/Chat.java") =
      some (update_package_and_imports c₂) := by
  refine ⟨?_, ?_, (mainRun_happy fs).1, ?_⟩
  · intro st hst
    rw [@processEntry_ok happyOracle st ("model/Chat.java", "entity/chat/Chat.java") c₁
      hst rfl rfl]
  · intro st hst
    rw [@processEntry_ok happyOracle st ("model/chat/Chat.java", "entity/chat/Chat.java") c₂
      hst rfl rfl]
  · rw [mainRun_fs]
    apply applyWrites_at
    have hFM : FILE_MAPPINGS = FILE_MAPPINGS.take 38 ++
        (("model/chat/Chat.java", "entity/chat/Chat.java") :: FILE_MAPPINGS.drop 39) := by
      decide
    have hew : entryWrite happyOracle fs ("model/chat/Chat.java", "entity/chat/Chat.java") =
        some (newSrcPath "entity/chat/Chat.java", update_package_and_imports c₂) := by
      unfold entryWrite
      rw [h₂]
      rfl
    have hW : runWrites happyOracle fs =
        (FILE_MAPPINGS.take 38).filterMap (entryWrite happyOracle fs) ++
          ((newSrcPath "entity/chat/Chat.java", update_package_and_imports c₂) ::
            ((FILE_MAPPINGS.drop 39).filterMap (entryWrite happyOracle fs) ++
              (testWrite happyOracle fs).toList)) := by
      unfold runWrites
      conv_lhs => rw [hFM]
      rw [List.filterMap_append, List.filterMap_cons, hew]
      simp [List.append_assoc]
    rw [hW]
    apply lastAssoc_last_write
    intro w hw
    rcases List.mem_append.mp hw with hw | hw
    · obtain ⟨e, he, hwe⟩ := List.mem_filterMap.mp hw
      rw [entryWrite_path hwe]
      have hpost : ∀ e ∈ FILE_MAPPINGS.drop 39,
          newSrcPath e.2 ≠ newSrcPath "entity/chat/Chat.java" := by decide
      exact hpost e he
    · have hst : testWrite happyOracle fs = some w :=
        Option.mem_def.mp (Option.mem_toList.mp hw)
      rw [testWrite_path hst]
      decide

/-- Claim C10, witness: the amended claim at a concrete filesystem holding
both chat entity sources. -/
theorem claim_C10_witness :
    (processEntry happyOracle
        (initState (fun p => if p = oldSrcPath "model/Chat.java" then some ['a']
          else if p = oldSrcPath "model/chat/Chat.java" then some ['b'] else none))
        ("model/Chat.java", "entity/chat/Chat.java")).success =
      (initState (fun p => if p = oldSrcPath "model/Chat.java" then some ['a']
        else if p = oldSrcPath "model/chat/Chat.java" then some ['b'] else none)).success + 1 ∧
    (mainRun happyOracle
        (fun p => if p = oldSrcPath "model/Chat.java" then some ['a']
          else if p = oldSrcPath "model/chat/Chat.java" then some ['b'] else none)).fs
      (newSrcPath "entity/chat/Chat.java") = some (update_package_and_imports ['b']) :=
  ⟨(claim_C10_amended
      (fun p => if p = oldSrcPath "model/Chat.java" then some ['a']
        else if p = oldSrcPath "model/chat/Chat.java" then some ['b'] else none)
      ['a'] ['b'] (by decide) (by decide)).1 _ (by decide),
   (claim_C10_amended
      (fun p => if p = oldSrcPath "model/Chat.java" then some ['a']
        else if p = oldSrcPath "model/chat/Chat.java" then some ['b'] else none)
      ['a'] ['b'] (by decide) (by decide)).2.2.2⟩

end Migrate
